import Mathlib

/-!
Verification of the query engine and time-series health-data store of the
`apple-health-chat-mcp` repository (src/query-engine.ts and src/health-data.ts,
provided as src/unnamed/part_000).

Shallow embedding conventions:
* JavaScript values (the `number | string | Date | null | undefined` union plus
  the arrays and plain objects that appear in filter values and summary rows)
  are modelled by the inductive type `JSVal`.  JS numbers are modelled by `ℚ`
  (the arithmetic the program performs on health data is exact on rationals);
  `NaN` is modelled by `Option.none` at coercion points (`jsToNumber`).
* `Date` objects carry their epoch value in milliseconds (`Int`).  Functions
  whose behaviour depends on the host time zone (`getHours`, `startOfDay`,
  date formatting) take the process UTC offset in milliseconds, `tz`, as an
  explicit parameter.
* Filesystem access (`glob` discovery, `readFileSync` + papaparse) is external
  I/O; `discoverFiles` results are passed in as a list of paths and
  `parseCSVFile` as an oracle `String → Except HealthExportError ParsedCSVFile`.
* JavaScript's `Array.prototype.sort` with a comparator `cmp` (stable since
  ES2019) is modelled by `List.mergeSort` with `le a b := cmp a b ≤ 0`.
* The in-place mutation performed by `Array.prototype.sort` inside
  `applyOrderBy` is made explicit: `executeQuery` returns, next to its result,
  the state of the caller's input array after the call.
* The regular expressions of the hand-rolled query parser are implemented
  character by character with the same scan/lazy-capture semantics on
  newline-free inputs.
-/

namespace HealthChat

/-! ### Character and string helpers (JS string primitives) -/

/-- The backtick character (stripped from identifiers by the parser). -/
def backtickChar : Char := Char.ofNat 96

/-- The single-quote character (stripped from filter values by the parser). -/
def quoteChar : Char := Char.ofNat 39

/-- JS `\s` for the inputs we model (no exotic Unicode whitespace). -/
def isWs (c : Char) : Bool := c.isWhitespace

/-- `String.prototype.trim` on a character list. -/
def jsTrim (s : List Char) : List Char :=
  ((s.dropWhile isWs).reverse.dropWhile isWs).reverse

/-- Case-insensitive keyword consumption: if `s` starts with `kw` up to ASCII
case, return the rest of `s`. -/
def eatKw : List Char → List Char → Option (List Char)
  | [], rest => some rest
  | _, [] => none
  | k :: ks, c :: cs => if k.toLower == c.toLower then eatKw ks cs else none

/-- `\s+`: at least one whitespace character, consumed greedily. -/
def ws1 : List Char → Option (List Char)
  | [] => none
  | c :: cs => if isWs c then some (cs.dropWhile isWs) else none

/-- Substring containment (case-sensitive), i.e. `String.prototype.includes`. -/
def containsSub (s pat : List Char) : Bool :=
  match s with
  | [] => pat.isEmpty
  | _ :: cs => pat.isPrefixOf s || containsSub cs pat

/-- Split on a character (JS `String.prototype.split` with a one-char
separator). -/
def splitOnChar (sep : Char) (s : List Char) : List (List Char) :=
  match s with
  | [] => [[]]
  | c :: cs =>
    let rest := splitOnChar sep cs
    if c == sep then [] :: rest
    else
      match rest with
      | r :: rs => (c :: r) :: rs
      | [] => [[c]]

/-- Remove every occurrence of a character (JS `replace(/c/g, '')`). -/
def removeChar (c : Char) (s : List Char) : List Char := s.filter (· != c)

/-! ### JS values -/

/-- The JavaScript values flowing through the query engine.  The only arrays
that ever reach a `JSVal` position are the string arrays the `IN` parser
builds, so arrays are modelled as `strList`. -/
inductive JSVal where
  /-- A JS number (doubles are modelled exactly by rationals). -/
  | num (q : ℚ)
  /-- A JS string. -/
  | str (s : String)
  /-- A `Date` object, by its epoch milliseconds. -/
  | date (t : Int)
  /-- The JS `null`. -/
  | null
  /-- The JS `undefined` (absent record field). -/
  | undefined
  /-- A string array (the parsed `IN (...)` lists). -/
  | strList (vs : List String)
  deriving Repr, DecidableEq

/-- JS digits. -/
def isDigitChar (c : Char) : Bool := c.isDigit

/-- Decimal value of a digit run. -/
def digitsToNat (ds : List Char) : Nat :=
  ds.foldl (fun acc c => acc * 10 + (c.toNat - 48)) 0

/-- `Number(string)` restricted to optionally signed decimal literals with an
optional fractional part (the only numeric strings the health CSVs and the
query grammar produce); the empty/whitespace-only string is `0` as in JS.
Other strings (including `Infinity` and exotic literal forms) are `NaN`,
i.e. `none`. -/
def jsStringToNumber (s : List Char) : Option ℚ :=
  let t := jsTrim s
  if t.isEmpty then some 0
  else
    let (sign, t') : ℚ × List Char :=
      match t with
      | c :: cs => if c == '-' then (-1, cs) else if c == '+' then (1, cs) else (1, t)
      | [] => (1, t)
    let intPart := t'.takeWhile isDigitChar
    let rest := t'.dropWhile isDigitChar
    match rest with
    | [] =>
      if intPart.isEmpty then none
      else some (sign * (digitsToNat intPart : ℚ))
    | c :: frac =>
      if c == '.' && frac.all isDigitChar && !(intPart.isEmpty && frac.isEmpty) then
        some (sign * ((digitsToNat intPart : ℚ) +
          (digitsToNat frac : ℚ) / ((10 : ℚ) ^ frac.length)))
      else none

/-! ### Time helpers (date-fns / Date methods, parameterised by the host
UTC offset `tz` in milliseconds) -/

def msPerHour : Int := 3600000
def msPerDay : Int := 86400000

/-- `Date.prototype.getHours` (local hour of day). -/
def getHours (tz t : Int) : Int := ((t + tz).fdiv msPerHour).emod 24

/-- date-fns `startOfDay` (local midnight). -/
def startOfDay (tz t : Int) : Int := ((t + tz).fdiv msPerDay) * msPerDay - tz

/-- date-fns `endOfDay` (local 23:59:59.999). -/
def endOfDay (tz t : Int) : Int := startOfDay tz t + msPerDay - 1

/-- Days since the epoch of the local day containing `t`. -/
def epochDay (tz t : Int) : Int := (t + tz).fdiv msPerDay

/-- Civil date (year, month, day) from a day number (days since 1970-01-01),
Howard Hinnant's `civil_from_days` algorithm. -/
def civilFromDays (z : Int) : Int × Int × Int :=
  let z := z + 719468
  let era : Int := (if 0 ≤ z then z else z - 146096).fdiv 146097
  let doe : Int := z - era * 146097
  let yoe : Int := (doe - doe.fdiv 1460 + doe.fdiv 36524 - doe.fdiv 146096).fdiv 365
  let y : Int := yoe + era * 400
  let doy : Int := doe - (365 * yoe + yoe.fdiv 4 - yoe.fdiv 100)
  let mp : Int := (5 * doy + 2).fdiv 153
  let d : Int := doy - (153 * mp + 2).fdiv 5 + 1
  let m : Int := mp + (if mp < 10 then 3 else -9)
  (y + (if m ≤ 2 then 1 else 0), m, d)

/-- Left-pad a numeral with zeros to width `w`. -/
def padNum (w : Nat) (n : Int) : String :=
  let s := toString n.natAbs
  let pad := String.mk (List.replicate (w - s.length) '0')
  if n < 0 then String.mk ['-'] ++ pad ++ s else pad ++ s

/-- date-fns `format(t, 'yyyy-MM-dd')` in local time. -/
def formatDay (tz t : Int) : String :=
  let (y, m, d) := civilFromDays (epochDay tz t)
  padNum 4 y ++ String.mk ['-'] ++ padNum 2 m ++ String.mk ['-'] ++ padNum 2 d

/-- date-fns `format(t, 'yyyy-MM-dd HH:00')` in local time. -/
def formatHourBucket (tz t : Int) : String :=
  formatDay tz t ++ String.mk [' '] ++ padNum 2 (getHours tz t) ++ String.mk [':', '0', '0']

/-- date-fns `format(t, 'yyyy-MM-dd HH:mm:ss')` in local time. -/
def formatYmdHms (tz t : Int) : String :=
  let localMs : Int := t + tz
  let rem : Int := localMs.emod msPerDay
  let hh := rem.fdiv msPerHour
  let mm := (rem.fdiv 60000).emod 60
  let ss := (rem.fdiv 1000).emod 60
  formatDay tz t ++ String.mk [' '] ++ padNum 2 hh ++ String.mk [':'] ++ padNum 2 mm
    ++ String.mk [':'] ++ padNum 2 ss

/-- `Date.prototype.toISOString` (UTC, millisecond precision). -/
def toISOString (t : Int) : String :=
  let (y, m, d) := civilFromDays (t.fdiv msPerDay)
  let rem : Int := t.emod msPerDay
  let hh := rem.fdiv msPerHour
  let mm := (rem.fdiv 60000).emod 60
  let ss := (rem.fdiv 1000).emod 60
  let ms := rem.emod 1000
  padNum 4 y ++ String.mk ['-'] ++ padNum 2 m ++ String.mk ['-'] ++ padNum 2 d
    ++ String.mk ['T'] ++ padNum 2 hh ++ String.mk [':'] ++ padNum 2 mm
    ++ String.mk [':'] ++ padNum 2 ss ++ String.mk ['.'] ++ padNum 3 ms
    ++ String.mk ['Z']

/-- JS `Date.prototype.getDay` (0 = Sunday; 1970-01-01 was a Thursday). -/
def getDay (tz t : Int) : Int := (epochDay tz t + 4).emod 7

/-- date-fns `startOfWeek` (week starts on Sunday by default). -/
def startOfWeek (tz t : Int) : Int := startOfDay tz t - getDay tz t * msPerDay

/-- date-fns `startOfMonth`. -/
def startOfMonth (tz t : Int) : Int :=
  let (_, _, d) := civilFromDays (epochDay tz t)
  startOfDay tz t - (d - 1) * msPerDay

/-! ### Records (`HealthDataPoint`) and JS coercions -/

/-- The key under which every record stores its timestamp. -/
def tsKey : String := "timestamp"

/-- `HealthDataPoint`: a required `timestamp` (a `Date`) plus an open,
insertion-ordered mapping from metric name to value.  The model keeps the
timestamp separate; the CSV layer never produces a metric literally named
`"timestamp"`, so `fields` is assumed not to contain `tsKey`. -/
structure HealthDataPoint where
  timestamp : Int
  fields : List (String × JSVal)
  deriving Repr, DecidableEq

/-- Property read `point[col]`: the timestamp `Date` for `"timestamp"`,
otherwise the stored field value, `undefined` when absent. -/
def getField (p : HealthDataPoint) (col : String) : JSVal :=
  if col == tsKey then .date p.timestamp
  else ((p.fields.lookup col).getD .undefined)

/-- JS object property write on the sparse part of a record: update in place
if the key exists (keeping its position), else append.  A write to
`"timestamp"` stores the epoch value of the written `Date`; the engine only
ever writes the bucket's own timestamp there (`applyGroupBy`), so other value
shapes cannot reach this point. -/
def setField (p : HealthDataPoint) (col : String) (v : JSVal) : HealthDataPoint :=
  if col == tsKey then
    match v with
    | .date t => { p with timestamp := t }
    | _ => p
  else if (p.fields.lookup col).isSome then
    { p with fields := p.fields.map (fun kv => if kv.1 == col then (col, v) else kv) }
  else
    { p with fields := p.fields ++ [(col, v)] }

/-- `Number(value)` on a `JSVal`; `none` is `NaN`.  `Number(null) = 0`,
`Number(undefined) = NaN`, `Number(date)` is its epoch value, arrays coerce
through their comma-joined string form. -/
def jsToNumber : JSVal → Option ℚ
  | .num q => some q
  | .str s => jsStringToNumber s.toList
  | .date t => some (t : ℚ)
  | .null => some 0
  | .undefined => none
  | .strList vs => jsStringToNumber (String.intercalate (String.mk [',']) vs).toList

/-- Render a JS number as a string.  Integral values print as in JS; the
shortest-round-trip formatting of non-integral doubles is outside the rational
model and is rendered as `num/den`. -/
def jsNumToString (q : ℚ) : String :=
  if q.den == 1 then toString q.num
  else toString q.num ++ String.mk ['/'] ++ toString q.den

/-- `String(value)`.  `Date` objects stringify through their human-readable
form; the engine only reaches that case when grouping or matching on the raw
`timestamp` column, and the host-dependent trailing timezone name is omitted. -/
def jsToString (tz : Int) : JSVal → String
  | .num q => jsNumToString q
  | .str s => s
  | .date t => formatYmdHms tz t
  | .null => "null"
  | .undefined => "undefined"
  | .strList vs => String.intercalate (String.mk [',']) vs

/-- JS truthiness. -/
def jsTruthy : JSVal → Bool
  | .num q => q != 0
  | .str s => !s.isEmpty
  | .date _ => true
  | .null => false
  | .undefined => false
  | .strList _ => true

/-- `value == null` (loose): `null` or `undefined`. -/
def isNullish : JSVal → Bool
  | .null => true
  | .undefined => true
  | _ => false

/-- Strict equality `===`.  `Date` objects and arrays compare by reference;
the engine always compares a record value against a freshly parsed filter
value, so object identity never holds between them. -/
def jsStrictEq : JSVal → JSVal → Bool
  | .num a, .num b => a == b
  | .str a, .str b => a == b
  | .null, .null => true
  | .undefined, .undefined => true
  | _, _ => false

/-- The JS relational `<` as used on record values: both string operands
compare lexicographically, otherwise both coerce to number and any `NaN`
makes the comparison false. -/
def jsLt : JSVal → JSVal → Bool
  | .str a, .str b => a < b
  | a, b =>
    match jsToNumber a, jsToNumber b with
    | some x, some y => x < y
    | _, _ => false

/-! ### Query-engine data shapes (src/types.ts) -/

/-- `HealthExportError`: code plus message.  The `details` payload (the raw
cause object) carries no information the claims depend on and is omitted. -/
structure HealthExportError where
  code : String
  message : String
  deriving Repr, DecidableEq

/-- `QueryEngine.createError` / `HealthDataManager.createError`. -/
def createError (code message : String) : HealthExportError := ⟨code, message⟩

/-- `QueryFilter`.  `operator` is `none` when the parser leaves it
`undefined` (a condition shape no operator pattern classifies). -/
structure QueryFilter where
  column : String
  operator : Option String
  value : JSVal
  deriving Repr, DecidableEq

/-- `QueryOrderBy`. -/
structure QueryOrderBy where
  column : String
  direction : String
  deriving Repr, DecidableEq

/-- `ParsedQuery`. -/
structure ParsedQuery where
  select : List String
  fromTable : String
  whereConds : List QueryFilter
  groupBy : List String
  orderBy : List QueryOrderBy
  limit : Option Nat
  offset : Option Nat
  deriving Repr, DecidableEq

/-- The `{count, sum, avg, min, max}` object built per column by the
`summary` output format. -/
structure SummaryStats where
  count : Nat
  sum : ℚ
  avg : ℚ
  min : ℚ
  max : ℚ
  deriving Repr, DecidableEq

/-- One result row: an array of cells, or the single synthetic object row of
the `summary` format. -/
inductive ResultRow where
  | cells (vs : List JSVal)
  | summaryObj (fields : List (String × SummaryStats))
  deriving Repr, DecidableEq

/-- `QueryResult`.  `executionTime` is wall-clock time and is not modelled. -/
structure QueryResult where
  columns : List String
  rows : List ResultRow
  rowCount : Nat
  deriving Repr, DecidableEq

/-! ### QueryEngine: filter evaluation -/

/-- `String.prototype.toLowerCase` (ASCII). -/
def lowerStr (s : String) : String := String.mk (s.toList.map Char.toLower)

/-- Operator literals. -/
def opEq : String := "="
def opNe : String := "!="
def opGt : String := ">"
def opLt : String := "<"
def opGe : String := ">="
def opLe : String := "<="
def opLike : String := "LIKE"
def opIn : String := "IN"
def opIsNull : String := "IS NULL"
def opIsNotNull : String := "IS NOT NULL"

/-- `QueryEngine.evaluateFilter`. -/
def evaluateFilter (tz : Int) (point : HealthDataPoint) (filter : QueryFilter) : Bool :=
  let value := getField point filter.column
  match filter.operator with
  | some op =>
    if op == opEq then jsStrictEq value filter.value
    else if op == opNe then !jsStrictEq value filter.value
    else if op == opGt then
      match jsToNumber value, jsToNumber filter.value with
      | some x, some y => x > y
      | _, _ => false
    else if op == opLt then
      match jsToNumber value, jsToNumber filter.value with
      | some x, some y => x < y
      | _, _ => false
    else if op == opGe then
      match jsToNumber value, jsToNumber filter.value with
      | some x, some y => x ≥ y
      | _, _ => false
    else if op == opLe then
      match jsToNumber value, jsToNumber filter.value with
      | some x, some y => x ≤ y
      | _, _ => false
    else if op == opLike then
      containsSub (lowerStr (jsToString tz value)).toList
        (lowerStr (jsToString tz filter.value)).toList
    else if op == opIn then
      match filter.value with
      | .strList vs => vs.any (fun v => jsStrictEq value (.str v))
      | _ => false
    else if op == opIsNull then isNullish value
    else if op == opIsNotNull then !isNullish value
    else false
  | none => false

/-- `QueryEngine.applyFilters`: conjunction of all WHERE conditions. -/
def applyFilters (tz : Int) (data : List HealthDataPoint) (filters : List QueryFilter) :
    List HealthDataPoint :=
  data.filter (fun point => filters.all (evaluateFilter tz point))

/-! ### QueryEngine: GROUP BY and aggregation -/

def colStar : String := "*"
def colDateTs : String := "DATE(timestamp)"
def colHourTs : String := "HOUR(timestamp)"
def colWeekTs : String := "WEEK(timestamp)"
def colMonthTs : String := "MONTH(timestamp)"
def colDateLit : String := "date"

/-- One component of the composite group key. -/
def groupKeyPart (tz : Int) (p : HealthDataPoint) (col : String) : String :=
  if col == colDateTs then formatDay tz p.timestamp
  else if col == colHourTs then formatHourBucket tz p.timestamp
  else if col == colWeekTs then formatDay tz (startOfWeek tz p.timestamp)
  else if col == colMonthTs then formatDay tz (startOfMonth tz p.timestamp)
  else if col == colDateLit then formatDay tz p.timestamp
  else
    let v := getField p col
    jsToString tz (if jsTruthy v then v else .str "")

/-- The composite group key `groupByColumns.map(...).join('|')`. -/
def groupKey (tz : Int) (groupByColumns : List String) (p : HealthDataPoint) : String :=
  String.intercalate (String.mk ['|']) (groupByColumns.map (groupKeyPart tz p))

/-- `Map`-backed bucket insertion: append to an existing bucket, else append a
new bucket (first-seen key order, as JS `Map` iteration). -/
def bucketsInsert (bs : List (String × List HealthDataPoint)) (k : String)
    (p : HealthDataPoint) : List (String × List HealthDataPoint) :=
  if bs.any (fun kv => kv.1 == k) then
    bs.map (fun kv => if kv.1 == k then (kv.1, kv.2 ++ [p]) else kv)
  else bs ++ [(k, [p])]

/-- The grouping loop of `applyGroupBy`. -/
def groupBuckets (tz : Int) (data : List HealthDataPoint) (groupByColumns : List String) :
    List (String × List HealthDataPoint) :=
  data.foldl (fun bs p => bucketsInsert bs (groupKey tz groupByColumns p) p) []

/-- Rest of `s` after the first occurrence of `pat`, if any
(leftmost regex match position). -/
def findSub (s pat : List Char) : Option (List Char) :=
  match s with
  | [] => if pat.isEmpty then some [] else none
  | _ :: cs => if pat.isPrefixOf s then some (s.drop pat.length) else findSub cs pat

/-- Greedy `(.+)\)` at the end of a regex such as `/SUM\((.+)\)/`: the
capture runs to the last `)` of the string and must be non-empty. -/
def lastParenCapture (rest : List Char) : Option (List Char) :=
  match rest.reverse.dropWhile (· != ')') with
  | [] => none
  | _ :: before => if before.isEmpty then none else some before.reverse

/-- `col.match(/TAG\((.+)\)/)?.[1]` where `tag` is e.g. `SUM(`. -/
def aggArg (tag : List Char) (col : List Char) : Option String :=
  match findSub col tag with
  | none => none
  | some rest => (lastParenCapture rest).map String.mk

def tagSum : List Char := ['S', 'U', 'M', '(']
def tagAvg : List Char := ['A', 'V', 'G', '(']
def tagMin : List Char := ['M', 'I', 'N', '(']
def tagMax : List Char := ['M', 'A', 'X', '(']
def tagCount : List Char := ['C', 'O', 'U', 'N', 'T', '(']

/-- `SUM`: fold of `Number(point[m]) || 0` over the bucket. -/
def sumAgg (groupData : List HealthDataPoint) (m : String) : ℚ :=
  groupData.foldl (fun acc p => acc + ((jsToNumber (getField p m)).getD 0)) 0

/-- The bucket's values for `m` that coerce to a number other than `NaN`. -/
def validValues (groupData : List HealthDataPoint) (m : String) : List ℚ :=
  groupData.filterMap (fun p => jsToNumber (getField p m))

/-- Fold of `Math.min` over a non-empty list. -/
def listMin : List ℚ → ℚ
  | [] => 0
  | v :: vs => vs.foldl min v

/-- Fold of `Math.max` over a non-empty list. -/
def listMax : List ℚ → ℚ
  | [] => 0
  | v :: vs => vs.foldl max v

/-- The `for (const col of selectColumns)` body of `applyGroupBy`, building
one aggregated record for a bucket. -/
def aggStep (groupByColumns : List String) (groupData : List HealthDataPoint)
    (g0 : HealthDataPoint) (agg : HealthDataPoint) (col : String) : HealthDataPoint :=
  if col == colStar then
    -- Object.assign(aggregatedPoint, groupData[0]): copies every own property
    -- of the first record; its `timestamp` equals the one already present.
    g0.fields.foldl (fun a kv => setField a kv.1 kv.2) agg
  else if containsSub col.toList tagSum then
    match aggArg tagSum col.toList with
    | some m => setField agg col (.num (sumAgg groupData m))
    | none => agg
  else if containsSub col.toList tagAvg then
    match aggArg tagAvg col.toList with
    | some m =>
      let values := validValues groupData m
      setField agg col (.num (if values.length > 0 then
        (values.foldl (· + ·) 0) / (values.length : ℚ) else 0))
    | none => agg
  else if containsSub col.toList tagMin then
    match aggArg tagMin col.toList with
    | some m =>
      let values := validValues groupData m
      setField agg col (.num (if values.length > 0 then listMin values else 0))
    | none => agg
  else if containsSub col.toList tagMax then
    match aggArg tagMax col.toList with
    | some m =>
      let values := validValues groupData m
      setField agg col (.num (if values.length > 0 then listMax values else 0))
    | none => agg
  else if containsSub col.toList tagCount then
    match aggArg tagCount col.toList with
    | some m =>
      setField agg col
        (.num ((groupData.filter (fun p => !isNullish (getField p m))).length))
    | none => agg
  else if groupByColumns.contains col then
    setField agg col (getField g0 col)
  else agg

/-- The per-bucket aggregation of `applyGroupBy` (buckets are non-empty by
construction; the `[]` branch is unreachable). -/
def aggregateBucket (selectColumns groupByColumns : List String)
    (groupData : List HealthDataPoint) : HealthDataPoint :=
  match groupData with
  | [] => ⟨0, []⟩
  | g0 :: _ =>
    selectColumns.foldl (aggStep groupByColumns groupData g0) ⟨g0.timestamp, []⟩

/-- `QueryEngine.applyGroupBy`. -/
def applyGroupBy (tz : Int) (data : List HealthDataPoint)
    (groupByColumns selectColumns : List String) : List HealthDataPoint :=
  (groupBuckets tz data groupByColumns).map
    (fun kv => aggregateBucket selectColumns groupByColumns kv.2)

/-! ### QueryEngine: ORDER BY -/

def dirAsc : String := "ASC"
def dirDesc : String := "DESC"

/-- The per-key comparison of the ORDER BY comparator, before direction
inversion. -/
def orderComparison (o : QueryOrderBy) (a b : HealthDataPoint) : Int :=
  let aVal := getField a o.column
  let bVal := getField b o.column
  if !isNullish aVal && !isNullish bVal then
    if jsLt aVal bVal then -1 else if jsLt bVal aVal then 1 else 0
  else if isNullish aVal && !isNullish bVal then -1
  else if !isNullish aVal && isNullish bVal then 1
  else 0

/-- The ORDER BY comparator: first non-zero key comparison, inverted when the
direction keyword is `DESC`; equal keys fall through to the next key. -/
def cmpOrder : List QueryOrderBy → HealthDataPoint → HealthDataPoint → Int
  | [], _, _ => 0
  | o :: rest, a, b =>
    let comparison := orderComparison o a b
    if comparison != 0 then
      if o.direction == dirDesc then -comparison else comparison
    else cmpOrder rest a b

/-- `QueryEngine.applyOrderBy`: the host's in-place stable sort, modelled by
`List.mergeSort` on `comparator ≤ 0`. -/
def applyOrderBy (data : List HealthDataPoint) (orderByClause : List QueryOrderBy) :
    List HealthDataPoint :=
  data.mergeSort (fun a b => decide (cmpOrder orderByClause a b ≤ 0))

/-! ### QueryEngine: result formatting -/

def fmtJson : String := "json"
def fmtCsv : String := "csv"
def fmtSummary : String := "summary"

/-- First-seen-order union of the non-timestamp keys of all records (the
`Set` walk of `formatResult`). -/
def collectColumns (data : List HealthDataPoint) : List String :=
  data.foldl
    (fun acc p =>
      p.fields.foldl
        (fun acc kv =>
          if kv.1 != tsKey && !acc.contains kv.1 then acc ++ [kv.1] else acc)
        acc)
    []

/-- JS `Array.prototype.sort()` default string sort. -/
def sortStrings (l : List String) : List String :=
  l.mergeSort (fun a b => !decide (b < a))

/-- One CSV cell. -/
def csvCell (tz : Int) (v : JSVal) : JSVal :=
  match v with
  | .date t => .str (formatYmdHms tz t)
  | .null => .str ""
  | .undefined => .str ""
  | v => .str (jsToString tz v)

/-- The `{count, sum, avg, min, max}` statistics of a non-empty value list. -/
def mkStats (values : List ℚ) : SummaryStats :=
  ⟨values.length, values.foldl (· + ·) 0,
    (values.foldl (· + ·) 0) / (values.length : ℚ), listMin values, listMax values⟩

/-- `QueryEngine.formatResult`. -/
def formatResult (tz : Int) (data : List HealthDataPoint) (selectColumns : List String)
    (fmt : String) : List String × List ResultRow :=
  if data.length == 0 then ([], [])
  else
    let columns :=
      if selectColumns.contains colStar then tsKey :: sortStrings (collectColumns data)
      else selectColumns
    if fmt == fmtCsv then
      (columns, data.map (fun p => .cells (columns.map (fun col => csvCell tz (getField p col)))))
    else if fmt == fmtSummary then
      let summary := columns.foldl
        (fun acc col =>
          if col != tsKey then
            let values := data.filterMap (fun p => jsToNumber (getField p col))
            if values.length > 0 then acc ++ [(col, mkStats values)] else acc
          else acc)
        []
      (columns, [.summaryObj summary])
    else
      (columns, data.map (fun p => .cells (columns.map (fun col =>
        match getField p col with
        | .date t => .str (toISOString t)
        | v => v))))

/-! ### QueryEngine: query-string parsing

The source parses with sequentially applied regular expressions.  Each one is
reimplemented below with JS regex semantics on the (single-line) inputs the
engine receives: leftmost match, lazy `(.+?)` takes the shortest capture whose
continuation matches, greedy `\s+`/`\d+`/`(\w+)` runs. -/

def kwSelect : List Char := ['s', 'e', 'l', 'e', 'c', 't']
def kwFrom : List Char := ['f', 'r', 'o', 'm']
def kwWhere : List Char := ['w', 'h', 'e', 'r', 'e']
def kwGroup : List Char := ['g', 'r', 'o', 'u', 'p']
def kwBy : List Char := ['b', 'y']
def kwOrder : List Char := ['o', 'r', 'd', 'e', 'r']
def kwLimit : List Char := ['l', 'i', 'm', 'i', 't']
def kwOffset : List Char := ['o', 'f', 'f', 's', 'e', 't']
def kwAnd : List Char := ['a', 'n', 'd']
def kwOr : List Char := ['o', 'r']
def kwIn : List Char := ['i', 'n']
def kwIs : List Char := ['i', 's']
def kwNot : List Char := ['n', 'o', 't']
def kwNull : List Char := ['n', 'u', 'l', 'l']
def kwLike : List Char := ['l', 'i', 'k', 'e']
def kwAsc : List Char := ['a', 's', 'c']
def kwDesc : List Char := ['d', 'e', 's', 'c']

/-- JS `\w`. -/
def isWordChar (c : Char) : Bool := c.isAlphanum || c == '_'

/-- The lazy capture of `/SELECT\s+(.+?)\s+FROM/i`: shortest non-empty run
whose continuation is `\s+FROM`. -/
def lazyToFrom (acc : List Char) : List Char → Option (List Char)
  | [] => none
  | c :: cs =>
    let acc' := acc ++ [c]
    match ws1 cs with
    | some rest => if (eatKw kwFrom rest).isSome then some acc' else lazyToFrom acc' cs
    | none => lazyToFrom acc' cs

/-- `trimmedQuery.match(/SELECT\s+(.+?)\s+FROM/i)`, returning capture 1. -/
def matchSelectFrom : List Char → Option (List Char)
  | [] => none
  | s@(_ :: cs) =>
    match eatKw kwSelect s with
    | some rest =>
      match ws1 rest with
      | some rest' =>
        match lazyToFrom [] rest' with
        | some g => some g
        | none => matchSelectFrom cs
      | none => matchSelectFrom cs
    | none => matchSelectFrom cs

/-- `trimmedQuery.match(/FROM\s+(\w+)/i)`, returning capture 1. -/
def matchFromTable : List Char → Option (List Char)
  | [] => none
  | s@(_ :: cs) =>
    match eatKw kwFrom s with
    | some rest =>
      match ws1 rest with
      | some rest' =>
        let w := rest'.takeWhile isWordChar
        if w.isEmpty then matchFromTable cs else some w
      | none => matchFromTable cs
    | none => matchFromTable cs

/-- Does `\s+GROUP\s+BY` match at the head of `s`? -/
def isGroupByAt (s : List Char) : Bool :=
  match ws1 s with
  | some r =>
    match eatKw kwGroup r with
    | some r2 =>
      match ws1 r2 with
      | some r3 => (eatKw kwBy r3).isSome
      | none => false
    | none => false
  | none => false

/-- Does `\s+ORDER\s+BY` match at the head of `s`? -/
def isOrderByAt (s : List Char) : Bool :=
  match ws1 s with
  | some r =>
    match eatKw kwOrder r with
    | some r2 =>
      match ws1 r2 with
      | some r3 => (eatKw kwBy r3).isSome
      | none => false
    | none => false
  | none => false

/-- Does `\s+LIMIT` match at the head of `s`? -/
def isLimitAt (s : List Char) : Bool :=
  match ws1 s with
  | some r => (eatKw kwLimit r).isSome
  | none => false

/-- Lazy `(.+?)` followed by `(?:\s+GROUP\s+BY|\s+ORDER\s+BY|\s+LIMIT|$)`. -/
def lazyWhereBody (acc : List Char) : List Char → Option (List Char)
  | [] => none
  | c :: cs =>
    let acc' := acc ++ [c]
    if isGroupByAt cs || isOrderByAt cs || isLimitAt cs || cs.isEmpty then some acc'
    else lazyWhereBody acc' cs

/-- `trimmedQuery.match(/WHERE\s+(.+?)(?:\s+GROUP\s+BY|\s+ORDER\s+BY|\s+LIMIT|$)/i)`. -/
def matchWhereClause : List Char → Option (List Char)
  | [] => none
  | s@(_ :: cs) =>
    match eatKw kwWhere s with
    | some rest =>
      match ws1 rest with
      | some rest' =>
        match lazyWhereBody [] rest' with
        | some g => some g
        | none => matchWhereClause cs
      | none => matchWhereClause cs
    | none => matchWhereClause cs

/-- Lazy `(.+?)` followed by `(?:\s+ORDER\s+BY|\s+LIMIT|$)`. -/
def lazyGroupByBody (acc : List Char) : List Char → Option (List Char)
  | [] => none
  | c :: cs =>
    let acc' := acc ++ [c]
    if isOrderByAt cs || isLimitAt cs || cs.isEmpty then some acc'
    else lazyGroupByBody acc' cs

/-- `trimmedQuery.match(/GROUP\s+BY\s+(.+?)(?:\s+ORDER\s+BY|\s+LIMIT|$)/i)`. -/
def matchGroupByClause : List Char → Option (List Char)
  | [] => none
  | s@(_ :: cs) =>
    match eatKw kwGroup s with
    | some r1 =>
      match ws1 r1 with
      | some r2 =>
        match eatKw kwBy r2 with
        | some r3 =>
          match ws1 r3 with
          | some r4 =>
            match lazyGroupByBody [] r4 with
            | some g => some g
            | none => matchGroupByClause cs
          | none => matchGroupByClause cs
        | none => matchGroupByClause cs
      | none => matchGroupByClause cs
    | none => matchGroupByClause cs

/-- Lazy `(.+?)` followed by `(?:\s+LIMIT|$)`. -/
def lazyOrderByBody (acc : List Char) : List Char → Option (List Char)
  | [] => none
  | c :: cs =>
    let acc' := acc ++ [c]
    if isLimitAt cs || cs.isEmpty then some acc'
    else lazyOrderByBody acc' cs

/-- `trimmedQuery.match(/ORDER\s+BY\s+(.+?)(?:\s+LIMIT|$)/i)`. -/
def matchOrderByClause : List Char → Option (List Char)
  | [] => none
  | s@(_ :: cs) =>
    match eatKw kwOrder s with
    | some r1 =>
      match ws1 r1 with
      | some r2 =>
        match eatKw kwBy r2 with
        | some r3 =>
          match ws1 r3 with
          | some r4 =>
            match lazyOrderByBody [] r4 with
            | some g => some g
            | none => matchOrderByClause cs
          | none => matchOrderByClause cs
        | none => matchOrderByClause cs
      | none => matchOrderByClause cs
    | none => matchOrderByClause cs

/-- `trimmedQuery.match(/LIMIT\s+(\d+)(?:\s+OFFSET\s+(\d+))?/i)`, returning
the limit and optional offset. -/
def matchLimitClause : List Char → Option (Nat × Option Nat)
  | [] => none
  | s@(_ :: cs) =>
    match eatKw kwLimit s with
    | some r1 =>
      match ws1 r1 with
      | some r2 =>
        let ds := r2.takeWhile isDigitChar
        if ds.isEmpty then matchLimitClause cs
        else
          let rest := r2.dropWhile isDigitChar
          let off : Option Nat :=
            match ws1 rest with
            | some r3 =>
              match eatKw kwOffset r3 with
              | some r4 =>
                match ws1 r4 with
                | some r5 =>
                  let ds2 := r5.takeWhile isDigitChar
                  if ds2.isEmpty then none else some (digitsToNat ds2)
                | none => none
              | none => none
            | none => none
          some (digitsToNat ds, off)
      | none => matchLimitClause cs
    | none => matchLimitClause cs

/-- Case-insensitive `endsWith`. -/
def ciEndsWith (kw s : List Char) : Bool := (eatKw kw.reverse s.reverse).isSome

/-- `s.replace(/\s+KW$/i, '')`. -/
def stripTrailingKwWs (kw s : List Char) : List Char :=
  match eatKw kw.reverse s.reverse with
  | some rest => if (rest.takeWhile isWs).isEmpty then s else (rest.dropWhile isWs).reverse
  | none => s

/-- One element of `parseOrderByClause`. -/
def parseOrderByPart (part : List Char) : QueryOrderBy :=
  let trimmed := removeChar backtickChar (jsTrim part)
  if ciEndsWith (' ' :: kwDesc) trimmed then
    ⟨String.mk (stripTrailingKwWs kwDesc trimmed), dirDesc⟩
  else
    ⟨String.mk (stripTrailingKwWs kwAsc trimmed), dirAsc⟩

/-- `QueryEngine.parseOrderByClause`. -/
def parseOrderByClause (orderByClause : List Char) : List QueryOrderBy :=
  (splitOnChar ',' orderByClause).map parseOrderByPart

/-! #### WHERE parsing -/

/-- A match of the split separator `/\s+(?:AND|OR)\s+/i` at the head of `s`,
returning the rest after it. -/
def trySep (s : List Char) : Option (List Char) :=
  match ws1 s with
  | some r =>
    match eatKw kwAnd r with
    | some r2 => ws1 r2
    | none =>
      match eatKw kwOr r with
      | some r2 => ws1 r2
      | none => none
  | none => none

/-- Worker for `splitAndOr`; the fuel equals the input length, so the
exhaustion branch is unreachable (each step consumes at least one character). -/
def splitAndOrGo (cur : List Char) : Nat → List Char → List (List Char)
  | _, [] => [cur.reverse]
  | 0, s => [cur.reverse ++ s]
  | fuel + 1, c :: cs =>
    match trySep (c :: cs) with
    | some rest => cur.reverse :: splitAndOrGo [] fuel rest
    | none => splitAndOrGo (c :: cur) fuel cs

/-- `whereClause.split(/\s+(?:AND|OR)\s+/i)`. -/
def splitAndOr (s : List Char) : List (List Char) := splitAndOrGo [] s.length s

/-- `^(.+?)\s*OP\s*(.+)$` for a symbolic operator (the conditions reaching
this point are trimmed, so the whitespace backtracking edge cases of `\s*`
before a non-empty `(.+)$` cannot arise). -/
def symSplitGo (op : List Char) (acc : List Char) : List Char → Option (List Char × List Char)
  | [] => none
  | c :: cs =>
    let acc' := acc ++ [c]
    let r := cs.dropWhile isWs
    if op.isPrefixOf r then
      let after := (r.drop op.length).dropWhile isWs
      if after.isEmpty then symSplitGo op acc' cs else some (acc', after)
    else symSplitGo op acc' cs

def symSplit (op s : List Char) : Option (List Char × List Char) := symSplitGo op [] s

/-- `^(.+?)\s+KW\s+(.+)$` (case-insensitive keyword). -/
def kwSplitGo (kw : List Char) (acc : List Char) : List Char → Option (List Char × List Char)
  | [] => none
  | c :: cs =>
    let acc' := acc ++ [c]
    match ws1 cs with
    | some r =>
      match eatKw kw r with
      | some r2 =>
        match ws1 r2 with
        | some r3 => if r3.isEmpty then kwSplitGo kw acc' cs else some (acc', r3)
        | none => kwSplitGo kw acc' cs
      | none => kwSplitGo kw acc' cs
    | none => kwSplitGo kw acc' cs

def kwSplit (kw s : List Char) : Option (List Char × List Char) := kwSplitGo kw [] s

/-- `^(.+?)\s+IN\s*\((.+)\)$`: the greedy capture runs to the final `)`. -/
def inSplitGo (acc : List Char) : List Char → Option (List Char × List Char)
  | [] => none
  | c :: cs =>
    let acc' := acc ++ [c]
    match ws1 cs with
    | some r =>
      match eatKw kwIn r with
      | some r2 =>
        match r2.dropWhile isWs with
        | '(' :: inner =>
          if inner.getLast? == some ')' && inner.length ≥ 2 then
            some (acc', inner.dropLast)
          else inSplitGo acc' cs
        | _ => inSplitGo acc' cs
      | none => inSplitGo acc' cs
    | none => inSplitGo acc' cs

def inSplit (s : List Char) : Option (List Char × List Char) := inSplitGo [] s

/-- `^(.+?)\s+IS\s+NULL$`. -/
def isNullSplitGo (acc : List Char) : List Char → Option (List Char)
  | [] => none
  | c :: cs =>
    let acc' := acc ++ [c]
    let hit :=
      match ws1 cs with
      | some r =>
        match eatKw kwIs r with
        | some r2 =>
          match ws1 r2 with
          | some r3 =>
            match eatKw kwNull r3 with
            | some r4 => r4.isEmpty
            | none => false
          | none => false
        | none => false
      | none => false
    if hit then some acc' else isNullSplitGo acc' cs

/-- `^(.+?)\s+IS\s+NOT\s+NULL$`. -/
def isNotNullSplitGo (acc : List Char) : List Char → Option (List Char)
  | [] => none
  | c :: cs =>
    let acc' := acc ++ [c]
    let hit :=
      match ws1 cs with
      | some r =>
        match eatKw kwIs r with
        | some r2 =>
          match ws1 r2 with
          | some r3 =>
            match eatKw kwNot r3 with
            | some r4 =>
              match ws1 r4 with
              | some r5 =>
                match eatKw kwNull r5 with
                | some r6 => r6.isEmpty
                | none => false
              | none => false
            | none => false
          | none => false
        | none => false
      | none => false
    if hit then some acc' else isNotNullSplitGo acc' cs

def symEq : List Char := ['=']
def symNe : List Char := ['!', '=']
def symGt : List Char := ['>']
def symLt : List Char := ['<']
def symGe : List Char := ['>', '=']
def symLe : List Char := ['<', '=']

/-- The ordered pattern list of `parseCondition`; returns the two capture
groups of the first pattern that matches (`IS [NOT] NULL` have no second
group). -/
def condPatterns (s : List Char) : Option (List Char × Option (List Char)) :=
  match symSplit symEq s with
  | some (g1, g2) => some (g1, some g2)
  | none =>
  match symSplit symNe s with
  | some (g1, g2) => some (g1, some g2)
  | none =>
  match symSplit symGt s with
  | some (g1, g2) => some (g1, some g2)
  | none =>
  match symSplit symLt s with
  | some (g1, g2) => some (g1, some g2)
  | none =>
  match symSplit symGe s with
  | some (g1, g2) => some (g1, some g2)
  | none =>
  match symSplit symLe s with
  | some (g1, g2) => some (g1, some g2)
  | none =>
  match kwSplit kwLike s with
  | some (g1, g2) => some (g1, some g2)
  | none =>
  match inSplit s with
  | some (g1, g2) => some (g1, some g2)
  | none =>
  match isNullSplitGo [] s with
  | some g1 => some (g1, none)
  | none =>
  match isNotNullSplitGo [] s with
  | some g1 => some (g1, none)
  | none => none

/-- `condition.match(/[=!<>]+/)?.[0]`. -/
def isOpChar (c : Char) : Bool := c == '=' || c == '!' || c == '<' || c == '>'

def firstOpRun : List Char → Option String
  | [] => none
  | c :: cs =>
    if isOpChar c then some (String.mk (c :: cs.takeWhile isOpChar)) else firstOpRun cs

/-- Number of days in a civil month. -/
def daysInMonth (y m : Int) : Int :=
  if m == 2 then
    if y.emod 4 == 0 && (y.emod 100 != 0 || y.emod 400 == 0) then 29 else 28
  else if m == 4 || m == 6 || m == 9 || m == 11 then 30
  else 31

/-- Days since the epoch of a civil date (Howard Hinnant's
`days_from_civil`). -/
def daysFromCivil (y m d : Int) : Int :=
  let y := y - (if m ≤ 2 then 1 else 0)
  let era := (if 0 ≤ y then y else y - 399).fdiv 400
  let yoe := y - era * 400
  let mp := m + (if m > 2 then -3 else 9)
  let doy := (153 * mp + 2).fdiv 5 + d - 1
  let doe := yoe * 365 + yoe.fdiv 4 - yoe.fdiv 100 + doy
  era * 146097 + doe - 719468

/-- Exactly `n` digits at the head. -/
def takeDigits (n : Nat) (s : List Char) : Option (Nat × List Char) :=
  let ds := s.take n
  if ds.length == n && ds.all isDigitChar then some (digitsToNat ds, s.drop n) else none

/-- `new Date(string)` restricted to ISO-8601 forms
(`yyyy-MM-dd[THH:mm[:ss[.fff]]][Z]`): a date-only string is UTC, a
date-time without `Z` is local time, invalid component ranges give an
invalid date (`none`).  The engine-specific non-ISO fallback formats are
not modelled (no health-query value uses them). -/
def jsNewDate (tz : Int) (s : List Char) : Option Int := do
  let (y, r1) ← takeDigits 4 s
  let r2 ← if r1.head? == some '-' then some r1.tail else none
  let (mo, r3) ← takeDigits 2 r2
  let r4 ← if r3.head? == some '-' then some r3.tail else none
  let (d, r5) ← takeDigits 2 r4
  if mo < 1 || mo > 12 || d < 1 || (d : Int) > daysInMonth y mo then none
  else
    let dayMs : Int := daysFromCivil y mo d * msPerDay
    match r5 with
    | [] => some dayMs
    | 'T' :: r6 => do
      let (hh, r7) ← takeDigits 2 r6
      let r8 ← if r7.head? == some ':' then some r7.tail else none
      let (mi, r9) ← takeDigits 2 r8
      if hh > 23 || mi > 59 then none
      else
        let (ss, ms, r10) ←
          match r9 with
          | ':' :: r9' => do
            let (ss, ra) ← takeDigits 2 r9'
            if ss > 59 then none
            else
              match ra with
              | '.' :: ra' => do
                let (ms, rb) ← takeDigits 3 ra'
                pure (ss, ms, rb)
              | _ => pure (ss, 0, ra)
          | _ => pure (0, 0, r9)
        let timeMs : Int := dayMs + (hh : Int) * msPerHour + (mi : Int) * 60000
          + (ss : Int) * 1000 + (ms : Int)
        match r10 with
        | [] => some (timeMs - tz)
        | ['Z'] => some timeMs
        | _ => none
    | _ => none

/-- `QueryEngine.parseValue`. -/
def parseValue (tz : Int) (value : String) : JSVal :=
  match jsStringToNumber value.toList with
  | some q => .num q
  | none =>
    match jsNewDate tz value.toList with
    | some t => .date t
    | none => .str value

def isNullUpper : List Char := ['I', 'S', ' ', 'N', 'U', 'L', 'L']
def isNotNullUpper : List Char := ['I', 'S', ' ', 'N', 'O', 'T', ' ', 'N', 'U', 'L', 'L']
def likeUpper : List Char := ['L', 'I', 'K', 'E']
def inUpper : List Char := ['I', 'N']

/-- The raw `TypeError` thrown when a pattern without a second capture group
reaches the value-processing code (`match[2].trim()` on `undefined`); it has
no `code` property, and only its message can reach a caller (wrapped by
`executeQuery`).  The engine-specific message text is not modelled. -/
def typeErrorUndefined : HealthExportError :=
  createError ("TYPE_ERROR") ("Cannot read properties of undefined")

/-- `QueryEngine.parseCondition`. -/
def parseCondition (tz : Int) (condition : List Char) :
    Except HealthExportError (Option QueryFilter) :=
  match condPatterns condition with
  | none => .ok none
  | some (g1, g2opt) =>
    let column := String.mk (removeChar backtickChar (jsTrim g1))
    if containsSub condition isNullUpper then .ok (some ⟨column, some opIsNull, .null⟩)
    else if containsSub condition isNotNullUpper then
      .ok (some ⟨column, some opIsNotNull, .null⟩)
    else if containsSub condition likeUpper then
      match g2opt with
      | some g2 =>
        .ok (some ⟨column, some opLike, .str (String.mk (removeChar quoteChar (jsTrim g2)))⟩)
      | none => .error typeErrorUndefined
    else if containsSub condition inUpper then
      match g2opt with
      | some g2 =>
        .ok (some ⟨column, some opIn,
          .strList ((splitOnChar ',' g2).map
            (fun v => String.mk (removeChar quoteChar (jsTrim v))))⟩)
      | none => .error typeErrorUndefined
    else
      match g2opt with
      | some g2 =>
        .ok (some ⟨column, firstOpRun condition,
          parseValue tz (String.mk (removeChar quoteChar (jsTrim g2)))⟩)
      | none => .error typeErrorUndefined

/-- The condition loop of `parseWhereClause`. -/
def parseWhereGo (tz : Int) : List (List Char) → Except HealthExportError (List QueryFilter)
  | [] => .ok []
  | part :: rest => do
    let c ← parseCondition tz (jsTrim part)
    let cs ← parseWhereGo tz rest
    match c with
    | some f => .ok (f :: cs)
    | none => .ok cs

/-- `QueryEngine.parseWhereClause`. -/
def parseWhereClause (tz : Int) (whereClause : List Char) :
    Except HealthExportError (List QueryFilter) :=
  parseWhereGo tz (splitAndOr whereClause)

/-- `QueryEngine.parseQuery`. -/
def parseQuery (tz : Int) (query : String) : Except HealthExportError ParsedQuery :=
  let trimmedQuery := jsTrim query.toList
  match matchSelectFrom trimmedQuery with
  | none => .error (createError ("INVALID_QUERY") ("Missing SELECT clause"))
  | some selRaw =>
    let selectClause := jsTrim selRaw
    let selectColumns :=
      if selectClause == ['*'] then [colStar]
      else (splitOnChar ',' selectClause).map
        (fun col => String.mk (removeChar backtickChar (jsTrim col)))
    match matchFromTable trimmedQuery with
    | none => .error (createError ("INVALID_QUERY") ("Missing FROM clause"))
    | some fromTable =>
      let whereParsed :=
        match matchWhereClause trimmedQuery with
        | some w => parseWhereClause tz w
        | none => .ok []
      match whereParsed with
      | .error e => .error e
      | .ok whereConditions =>
        let groupByColumns :=
          match matchGroupByClause trimmedQuery with
          | some g => (splitOnChar ',' g).map
              (fun col => String.mk (removeChar backtickChar (jsTrim col)))
          | none => []
        let orderByClause :=
          match matchOrderByClause trimmedQuery with
          | some o => parseOrderByClause o
          | none => []
        let (limit, offset) :=
          match matchLimitClause trimmedQuery with
          | some (l, o) => (some l, o)
          | none => (none, none)
        .ok ⟨selectColumns, String.mk fromTable, whereConditions, groupByColumns,
          orderByClause, limit, offset⟩

/-! ### QueryEngine: executeQuery -/

/-- Truthiness of `parsedQuery.limit` (the `if (parsedQuery.limit)` guard):
`undefined` and `0` are both falsy. -/
def jsTruthyLimit : Option Nat → Bool
  | some l => l != 0
  | none => false

/-- The try-block of `executeQuery` after a successful parse.  The second
component is the caller's input array after the call: `applyOrderBy` sorts
its argument in place, and that argument is still the caller's array exactly
when neither a WHERE filter pass nor a GROUP BY pass replaced it by a fresh
one. -/
def runParsed (tz : Int) (data : List HealthDataPoint) (pq : ParsedQuery) (fmt : String) :
    QueryResult × List HealthDataPoint :=
  let result1 := if pq.whereConds.length > 0 then applyFilters tz data pq.whereConds else data
  let result2 :=
    if pq.groupBy.length > 0 then applyGroupBy tz result1 pq.groupBy pq.select else result1
  let result3 := if pq.orderBy.length > 0 then applyOrderBy result2 pq.orderBy else result2
  let result4 :=
    if jsTruthyLimit pq.limit then
      (result3.drop (pq.offset.getD 0)).take (pq.limit.getD 0)
    else result3
  let fr := formatResult tz result4 pq.select fmt
  let dataAfter :=
    if pq.whereConds.length == 0 && pq.groupBy.length == 0 && pq.orderBy.length > 0 then
      result3
    else data
  (⟨fr.1, fr.2, fr.2.length⟩, dataAfter)

def qefPrefix : String := "Query execution failed: "

/-- `QueryEngine.executeQuery`.  Any error thrown inside the try-block
(including the parser's `INVALID_QUERY` errors) is caught and re-wrapped as a
`QUERY_EXECUTION_FAILED` error carrying the original message.  The second
component is the caller's input array after the call. -/
def executeQuery (tz : Int) (data : List HealthDataPoint) (query : String) (fmt : String) :
    Except HealthExportError QueryResult × List HealthDataPoint :=
  match parseQuery tz query with
  | .error e =>
    (.error (createError ("QUERY_EXECUTION_FAILED") (qefPrefix ++ e.message)), data)
  | .ok pq =>
    let (r, d) := runParsed tz data pq fmt
    (.ok r, d)

/-! ### HealthDataManager (src/health-data.ts)

File discovery and CSV parsing are external I/O: the discovered path list is
passed in explicitly and `parseCSVFile` is an oracle argument.  The cache is
a JS object with file-path keys, i.e. an insertion-ordered association list
(paths are never array-index-like strings). -/

/-- `ParsedCSVFile`. -/
structure ParsedCSVFile where
  filename : String
  date : Int
  data : List HealthDataPoint
  columns : List String
  rowCount : Nat
  deriving Repr, DecidableEq

/-- `DateRange` (the source field `end` is a reserved word in Lean and is
named `stop`). -/
structure DateRange where
  start : Int
  stop : Int
  deriving Repr, DecidableEq

/-- The relevant part of `HealthExportConfig` (`dataDirectory` only feeds the
discovery I/O). -/
structure HealthExportConfig where
  cacheSize : Nat
  enableCaching : Bool
  deriving Repr, DecidableEq

/-- `HealthDataCache`: insertion-ordered file-path → parsed-file map. -/
abbrev HealthDataCache := List (String × ParsedCSVFile)

/-- The oracle for `parseCSVFile` (filesystem + papaparse + timestamp
parsing): maps a path to a parsed file or a thrown load error. -/
abbrev ParseOracle := String → Except HealthExportError ParsedCSVFile

/-- `Object.keys(this.cache)` (insertion order). -/
def cacheKeys (cache : HealthDataCache) : List String :=
  cache.map Prod.fst

/-- The keys removed by `cleanupCache` (`cacheKeys.slice(0, cacheKeys.length
- this.config.cacheSize)`; empty when the bound holds). -/
def keysToRemove (config : HealthExportConfig) (cache : HealthDataCache) : List String :=
  (cacheKeys cache).take (cache.length - config.cacheSize)

/-- `HealthDataManager.cleanupCache`. -/
def cleanupCache (config : HealthExportConfig) (cache : HealthDataCache) : HealthDataCache :=
  if (cacheKeys cache).length > config.cacheSize then
    cache.filter (fun kv => !(keysToRemove config cache).contains kv.1)
  else cache

/-- `HealthDataManager.getCacheStats`. -/
def getCacheStats (cache : HealthDataCache) : Nat × List String :=
  ((cacheKeys cache).length, cacheKeys cache)

/-- `HealthDataManager.loadFile`: serve from the cache when enabled and
present, otherwise parse; on success insert (when caching) and evict. -/
def loadFile (config : HealthExportConfig) (parseCSVFile : ParseOracle)
    (cache : HealthDataCache) (filePath : String) :
    Except HealthExportError ParsedCSVFile × HealthDataCache :=
  match (if config.enableCaching then List.lookup filePath cache else none) with
  | some cached => (.ok cached, cache)
  | none =>
    match parseCSVFile filePath with
    | .error e => (.error e, cache)
    | .ok parsed =>
      if config.enableCaching then
        (.ok parsed, cleanupCache config (cache ++ [(filePath, parsed)]))
      else (.ok parsed, cache)

/-- `HealthDataManager.fileOverlapsRange`. -/
def fileOverlapsRange (tz : Int) (fileDate : Int) (dateRange : DateRange) : Bool :=
  startOfDay tz fileDate ≤ dateRange.stop && endOfDay tz fileDate ≥ dateRange.start

/-- date-fns `isWithinInterval` (closed interval). -/
def isWithinInterval (t : Int) (dateRange : DateRange) : Bool :=
  dateRange.start ≤ t && t ≤ dateRange.stop

/-- The per-file record filter of `getDataInRange`: in range, and not at
local hour 1 (the early-morning heuristic). -/
def rangeRecordFilter (tz : Int) (dateRange : DateRange) (p : HealthDataPoint) : Bool :=
  isWithinInterval p.timestamp dateRange && !(getHours tz p.timestamp == 1)

/-- The file loop of `getDataInRange`: every discovered file is loaded
(cache-aware) first, and only then tested for day overlap; load failures are
logged and skipped. -/
def collectInRange (config : HealthExportConfig) (tz : Int) (parseCSVFile : ParseOracle)
    (dateRange : DateRange) :
    List String → HealthDataCache → List HealthDataPoint × HealthDataCache
  | [], cache => ([], cache)
  | file :: files, cache =>
    let (res, cache') := loadFile config parseCSVFile cache file
    let contrib :=
      match res with
      | .error _ => []
      | .ok parsed =>
        if fileOverlapsRange tz parsed.date dateRange then
          parsed.data.filter (rangeRecordFilter tz dateRange)
        else []
    let (rest, cacheFinal) := collectInRange config tz parseCSVFile dateRange files cache'
    (contrib ++ rest, cacheFinal)

/-- Ascending-timestamp comparator order: `(a, b) => a.timestamp.getTime() -
b.timestamp.getTime()`, as the stable host sort sees it. -/
def tsLe (a b : HealthDataPoint) : Bool := decide (a.timestamp ≤ b.timestamp)

/-- `timestampMap.set(key, point)`: JS `Map.set` updates an existing key in
place (keeping its insertion position) or appends a new one.  The key
`point.timestamp.toISOString()` is an injective function of the epoch value,
so the map is keyed by the epoch value directly. -/
def tsMapSet (m : List (Int × HealthDataPoint)) (k : Int) (p : HealthDataPoint) :
    List (Int × HealthDataPoint) :=
  if m.any (fun kv => kv.1 == k) then
    m.map (fun kv => if kv.1 == k then (k, p) else kv)
  else m ++ [(k, p)]

/-- The deduplication pass of `getDataInRange`: walk the sorted list through
a `Map` keyed by timestamp (last write wins), then take the values. -/
def dedupByTimestamp (l : List HealthDataPoint) : List HealthDataPoint :=
  (l.foldl (fun m p => tsMapSet m p.timestamp p) []).map Prod.snd

/-- `HealthDataManager.getDataInRange`: discover (passed in as `files`),
load + overlap-test + filter each file, sort by timestamp, deduplicate by
exact timestamp keeping the last entry, and sort again. -/
def getDataInRange (config : HealthExportConfig) (tz : Int) (parseCSVFile : ParseOracle)
    (files : List String) (dateRange : DateRange) (cache : HealthDataCache) :
    List HealthDataPoint × HealthDataCache :=
  let (allData, cache') := collectInRange config tz parseCSVFile dateRange files cache
  let sortedData := allData.mergeSort tsLe
  let deduplicatedData := dedupByTimestamp sortedData
  (deduplicatedData.mergeSort tsLe, cache')

/-! ## Concrete inputs used by witnesses and counterexamples -/

instance {ε α : Type} [DecidableEq ε] [DecidableEq α] : DecidableEq (Except ε α) := fun a b =>
  match a, b with
  | .error e, .error e' => if h : e = e' then .isTrue (by rw [h]) else .isFalse (by simp [h])
  | .ok v, .ok v' => if h : v = v' then .isTrue (by rw [h]) else .isFalse (by simp [h])
  | .error _, .ok _ => .isFalse (by simp)
  | .ok _, .error _ => .isFalse (by simp)

def stepField : String := "Step Count (steps)"

/-- Two records with `Step Count (steps)` values 5000 and 6000. -/
def stepData : List HealthDataPoint :=
  [⟨0, [(stepField, .num 5000)]⟩, ⟨3600000, [(stepField, .num 6000)]⟩]

def sumStepQuery : String := "SELECT SUM(`Step Count (steps)`) FROM health_data"
def sumStepCol : String := "SUM(Step Count (steps))"

def missingSelectQuery : String := "FROM health_data"

def limitZeroQuery : String := "SELECT * FROM health_data LIMIT 0 OFFSET 1"
def limitZeroParsed : ParsedQuery := ⟨[colStar], "health_data", [], [], [], some 0, some 1⟩

/-! ## C2 -/

/-- A `runParsed` with `limit = some 0` behaves as if no LIMIT clause were
present: the `if (parsedQuery.limit)` guard is falsy at `0`, so the slice
(and with it the offset) is never applied. -/
theorem runParsed_limit_zero (tz : Int) (data : List HealthDataPoint) (pq : ParsedQuery)
    (fmt : String) (h : pq.limit = some 0) :
    runParsed tz data pq fmt = runParsed tz data { pq with limit := none, offset := none } fmt := by
  simp [runParsed, h, jsTruthyLimit]

/-- C2 (counterexample): on the query string `FROM health_data`, which lacks a
SELECT clause, `executeQuery` surfaces the generic `QUERY_EXECUTION_FAILED`
error kind — not the invalid-query kind the claim requires — because the
catch-all in `executeQuery` re-wraps the parser's `INVALID_QUERY` error. -/
theorem c2_counterexample_missing_select_generic_kind :
    (executeQuery 0 [] missingSelectQuery fmtJson).1 =
      .error ⟨"QUERY_EXECUTION_FAILED", "Query execution failed: Missing SELECT clause"⟩
    ∧ ("QUERY_EXECUTION_FAILED" : String) ≠ "INVALID_QUERY" := by
  constructor
  · decide
  · decide

/-- C2 (amended): for every query string in which the `SELECT ... FROM`
pattern does not match, `parseQuery` raises `INVALID_QUERY` with message
`Missing SELECT clause`, but `executeQuery`'s catch-all re-wraps it, so the
caller receives the generic `QUERY_EXECUTION_FAILED` kind whose message
`Query execution failed: Missing SELECT clause` still identifies the missing
clause; the input array is untouched. -/
theorem c2_missing_select_wrapped (tz : Int) (data : List HealthDataPoint)
    (query fmt : String) (h : matchSelectFrom (jsTrim query.toList) = none) :
    executeQuery tz data query fmt =
      (.error (createError ("QUERY_EXECUTION_FAILED")
        (qefPrefix ++ "Missing SELECT clause")), data) := by
  have h' : matchSelectFrom (jsTrim query.data) = none := h
  simp [executeQuery, parseQuery, h', createError]

/-- C2 (witness): the amended theorem applied to the concrete query
`FROM health_data`. -/
theorem c2_missing_select_wrapped_witness :
    executeQuery 0 [] missingSelectQuery fmtJson =
      (.error (createError ("QUERY_EXECUTION_FAILED")
        (qefPrefix ++ "Missing SELECT clause")), []) :=
  c2_missing_select_wrapped 0 [] missingSelectQuery fmtJson (by decide)

/-! ## C3 -/

/-- C3: evaluating the code at the failing input.  With records holding
`Step Count (steps)` values 5000 and 6000, the query
`SELECT SUM(`Step Count (steps)`) FROM health_data` (no GROUP BY) does NOT
return one row with value 11000: `executeQuery` only aggregates inside
`applyGroupBy`, which runs only when a GROUP BY clause is present, so the
result is one row per input record whose only cell is the value of the
missing literal column `SUM(Step Count (steps))`, i.e. `undefined` — two
rows, not one. -/
theorem c3_sum_without_group_by_row_per_record :
    (executeQuery 0 stepData sumStepQuery fmtJson).1 =
      .ok ⟨[sumStepCol], [.cells [.undefined], .cells [.undefined]], 2⟩ := by
  decide

/-! ## C10 -/

/-- C10: for every query whose LIMIT clause parses to the value 0,
`executeQuery` applies no pagination at all: the result (and the final state
of the input array) is the one produced with no LIMIT and no OFFSET, so every
row surviving filtering, grouping and sorting is returned rather than zero
rows. -/
theorem c10_limit_zero_skips_pagination (tz : Int) (data : List HealthDataPoint)
    (query fmt : String) (pq : ParsedQuery)
    (hparse : parseQuery tz query = .ok pq) (hlim : pq.limit = some 0) :
    (executeQuery tz data query fmt).1 =
      .ok (runParsed tz data { pq with limit := none, offset := none } fmt).1
    ∧ (executeQuery tz data query fmt).2 =
      (runParsed tz data { pq with limit := none, offset := none } fmt).2 := by
  rw [executeQuery, hparse, ← runParsed_limit_zero tz data pq fmt hlim]
  exact ⟨rfl, rfl⟩

/-- C10 (witness): `SELECT * FROM health_data LIMIT 0 OFFSET 1` parses with
`limit = 0`, and executing it returns every row. -/
theorem c10_limit_zero_skips_pagination_witness :
    (executeQuery 0 stepData limitZeroQuery fmtJson).1 =
      .ok (runParsed 0 stepData { limitZeroParsed with limit := none, offset := none } fmtJson).1 :=
  (c10_limit_zero_skips_pagination 0 stepData limitZeroQuery fmtJson limitZeroParsed
    (by decide) (by decide)).1

/-! ## C9 -/

/-- Closed two-element evaluation of `mergeSort` (the definition recurses by
well-founded recursion, so witnesses evaluate it through this equation). -/
theorem mergeSort_pair {α : Type} (le : α → α → Bool) (a b : α) :
    [a, b].mergeSort le = if le a b then [a, b] else [b, a] := by
  rw [List.mergeSort]
  simp [List.splitInTwo, List.splitAt, List.splitAt.go, List.merge]

/-- Closed three-element evaluation step of `mergeSort`. -/
theorem mergeSort_triple {α : Type} (le : α → α → Bool) (a b c : α) :
    [a, b, c].mergeSort le = ([a, b].mergeSort le).merge [c] le := by
  rw [List.mergeSort]
  simp [List.splitInTwo, List.splitAt, List.splitAt.go]

def orderByXQuery : String := "SELECT * FROM health_data ORDER BY x"

def c9Data : List HealthDataPoint := [⟨0, [("x", .num 2)]⟩, ⟨1, [("x", .num 1)]⟩]

/-- The input array after `runParsed` is a permutation of the original: the
only in-place mutation is the ORDER BY sort. -/
theorem runParsed_snd_perm (tz : Int) (data : List HealthDataPoint) (pq : ParsedQuery)
    (fmt : String) : ((runParsed tz data pq fmt).2).Perm data := by
  unfold runParsed
  by_cases h1 : pq.whereConds.length = 0
  · by_cases h2 : pq.groupBy.length = 0
    · by_cases h3 : pq.orderBy.length > 0
      · simp only [h1, h2, h3]
        simp [applyOrderBy, List.mergeSort_perm]
      · simp [h1, h2, h3]
    · simp [h1, h2]
  · simp [h1]

/-- C9 (counterexample): executing
`SELECT * FROM health_data ORDER BY x` over the two-record array whose `x`
values are `[2, 1]` leaves the caller's array reordered to `[1, 2]` —
`applyOrderBy` sorts the input array in place, and with no WHERE filter and
no GROUP BY the sorted array is the caller's array — so `executeQuery` is
not a pure pipeline over its input. -/
theorem c9_counterexample_input_reordered :
    (executeQuery 0 c9Data orderByXQuery fmtJson).2 =
      [⟨1, [("x", .num 1)]⟩, ⟨0, [("x", .num 2)]⟩]
    ∧ (executeQuery 0 c9Data orderByXQuery fmtJson).2 ≠ c9Data := by
  have hp : parseQuery 0 orderByXQuery =
      .ok ⟨[colStar], "health_data", [], [], [⟨"x", dirAsc⟩], none, none⟩ := by decide
  have h2 : (executeQuery 0 c9Data orderByXQuery fmtJson).2 =
      [⟨1, [("x", .num 1)]⟩, ⟨0, [("x", .num 2)]⟩] := by
    simp only [executeQuery, hp, runParsed]
    simp [c9Data, applyOrderBy, mergeSort_pair]
    decide
  refine ⟨h2, by rw [h2]; decide⟩

/-- C9 (amended): `executeQuery` keeps no state between calls and preserves
the input array's records as a multiset, but not necessarily their order:
when the parsed query has ORDER BY clauses and neither WHERE conditions nor
GROUP BY expressions, the caller's array is sorted in place, so after the
call it is a permutation of (and can differ from) the original. -/
theorem c9_execute_query_preserves_multiset (tz : Int) (data : List HealthDataPoint)
    (query fmt : String) : ((executeQuery tz data query fmt).2).Perm data := by
  cases hp : parseQuery tz query with
  | error e => simp [executeQuery, hp]
  | ok pq => simpa [executeQuery, hp] using runParsed_snd_perm tz data pq fmt

/-! ## C4 -/

/-- No element satisfying `P` is preceded by one violating `P`. -/
def noBadPair {α : Type} (P : α → Prop) (l : List α) : Prop :=
  l.Pairwise (fun a b => ¬ (P a ∧ ¬ P b))

/-- `List.merge` never creates a bad pair when the comparator always orders a
`P`-element after a `¬P`-element, regardless of any transitivity of the
comparator. -/
theorem merge_noBadPair {α : Type} (P : α → Prop) (le : α → α → Bool)
    (h1 : ∀ a b, P a → ¬ P b → le a b = false)
    (h2 : ∀ a b, P a → ¬ P b → le b a = true) :
    ∀ xs ys, noBadPair P xs → noBadPair P ys → noBadPair P (List.merge xs ys le)
  | [], ys, _, hy => by simpa [noBadPair] using hy
  | x :: xs, [], hx, _ => by simpa [noBadPair] using hx
  | x :: xs, y :: ys, hx, hy => by
    rw [List.cons_merge_cons]
    split
    · rename_i hxy
      have tail := merge_noBadPair P le h1 h2 xs (y :: ys) hx.of_cons hy
      refine List.pairwise_cons.mpr ⟨?_, tail⟩
      intro z hz hbad
      rw [List.mem_merge] at hz
      rcases hz with hzxs | hzy
      · exact List.rel_of_pairwise_cons hx hzxs hbad
      · have hPy : ¬ P y := by
          rcases List.mem_cons.mp hzy with rfl | hzys
          · exact hbad.2
          · intro hPy
            exact List.rel_of_pairwise_cons hy hzys ⟨hPy, hbad.2⟩
        rw [h1 x y hbad.1 hPy] at hxy
        exact Bool.false_ne_true hxy
    · rename_i hxy
      have tail := merge_noBadPair P le h1 h2 (x :: xs) ys hx hy.of_cons
      refine List.pairwise_cons.mpr ⟨?_, tail⟩
      intro z hz hbad
      rw [List.mem_merge] at hz
      apply hxy
      rcases hz with hzxs | hzys
      · rcases List.mem_cons.mp hzxs with rfl | hzxs'
        · exact h2 y z hbad.1 hbad.2
        · by_cases hPx : P x
          · exact absurd ⟨hPx, hbad.2⟩ (List.rel_of_pairwise_cons hx hzxs')
          · exact h2 y x hbad.1 hPx
      · exact absurd hbad (List.rel_of_pairwise_cons hy hzys)
  termination_by xs ys => xs.length + ys.length

/-- `List.mergeSort` never creates a bad pair under the same comparator
hypotheses (no hypothesis on the input list is needed). -/
theorem mergeSort_noBadPair {α : Type} (P : α → Prop) (le : α → α → Bool)
    (h1 : ∀ a b, P a → ¬ P b → le a b = false)
    (h2 : ∀ a b, P a → ¬ P b → le b a = true) :
    ∀ l : List α, noBadPair P (l.mergeSort le)
  | [] => by simp [noBadPair]
  | [a] => by simp [noBadPair]
  | a :: b :: xs => by
    have : (List.splitInTwo ⟨a :: b :: xs, rfl⟩).1.1.length < xs.length + 1 + 1 := by
      simp [List.splitInTwo_fst]; omega
    have : (List.splitInTwo ⟨a :: b :: xs, rfl⟩).2.1.length < xs.length + 1 + 1 := by
      simp [List.splitInTwo_snd]; omega
    rw [List.mergeSort]
    exact merge_noBadPair P le h1 h2 _ _
      (mergeSort_noBadPair P le h1 h2 _) (mergeSort_noBadPair P le h1 h2 _)
  termination_by l => l.length

def nullRec : HealthDataPoint := ⟨0, [("x", .null)]⟩
def fiveRec : HealthDataPoint := ⟨1, [("x", .num 5)]⟩
def obDescX : List QueryOrderBy := [⟨"x", dirDesc⟩]

/-- C4 (counterexample): sorting a null-`x` record and a non-null-`x` record
with `ORDER BY x DESC` places the null record last, not first: the direction
inversion `DESC ? -comparison : comparison` is applied to the null
comparison (`-(-1) = 1`) exactly as to defined comparisons, so the claimed
null-first placement fails for DESC. -/
theorem c4_counterexample_desc_nulls_last :
    applyOrderBy [nullRec, fiveRec] obDescX = [fiveRec, nullRec]
    ∧ isNullish (getField nullRec "x") = true
    ∧ isNullish (getField fiveRec "x") = false
    ∧ applyOrderBy [nullRec, fiveRec] obDescX ≠ [nullRec, fiveRec] := by
  have h1 : applyOrderBy [nullRec, fiveRec] obDescX = [fiveRec, nullRec] := by
    simp only [applyOrderBy, mergeSort_pair]
    decide
  refine ⟨h1, by decide, by decide, by rw [h1]; decide⟩

/-- C4 (amended): in `applyOrderBy`'s output, null/undefined values of the
first ORDER BY key sort before every non-null value under `ASC` but after
every non-null value under `DESC`, because the direction inversion is applied
to every non-zero comparison including the null-vs-non-null ones; equal key
comparisons fall through to the next ORDER BY key. -/
theorem c4_null_ordering_follows_direction (data : List HealthDataPoint)
    (o : QueryOrderBy) (rest : List QueryOrderBy) :
    ((o.direction == dirDesc) = false →
      (applyOrderBy data (o :: rest)).Pairwise
        (fun a b => ¬ (isNullish (getField a o.column) = false
          ∧ ¬ isNullish (getField b o.column) = false)))
    ∧ ((o.direction == dirDesc) = true →
      (applyOrderBy data (o :: rest)).Pairwise
        (fun a b => ¬ (isNullish (getField a o.column) = true
          ∧ ¬ isNullish (getField b o.column) = true)))
    ∧ (∀ a b, orderComparison o a b = 0 → cmpOrder (o :: rest) a b = cmpOrder rest a b) := by
  refine ⟨?_, ?_, ?_⟩
  · intro hdir
    apply mergeSort_noBadPair
      (P := fun p => isNullish (getField p o.column) = false)
    · intro a b ha hb
      have hb' : isNullish (getField b o.column) = true := by
        cases h : isNullish (getField b o.column) with
        | false => exact absurd h hb
        | true => rfl
      simp [cmpOrder, orderComparison, ha, hb', hdir]
    · intro a b ha hb
      have hb' : isNullish (getField b o.column) = true := by
        cases h : isNullish (getField b o.column) with
        | false => exact absurd h hb
        | true => rfl
      simp [cmpOrder, orderComparison, ha, hb', hdir]
  · intro hdir
    apply mergeSort_noBadPair
      (P := fun p => isNullish (getField p o.column) = true)
    · intro a b ha hb
      have hb' : isNullish (getField b o.column) = false := by
        cases h : isNullish (getField b o.column) with
        | false => rfl
        | true => exact absurd h hb
      simp [cmpOrder, orderComparison, ha, hb', hdir]
    · intro a b ha hb
      have hb' : isNullish (getField b o.column) = false := by
        cases h : isNullish (getField b o.column) with
        | false => rfl
        | true => exact absurd h hb
      simp [cmpOrder, orderComparison, ha, hb', hdir]
  · intro a b h
    simp [cmpOrder, h]

/-- C4 (witness): the amended theorem at the concrete two-record input under
`ORDER BY x DESC`. -/
theorem c4_null_ordering_follows_direction_witness :
    (applyOrderBy [nullRec, fiveRec] obDescX).Pairwise
      (fun a b => ¬ (isNullish (getField a "x") = true
        ∧ ¬ isNullish (getField b "x") = true)) :=
  (c4_null_ordering_follows_direction [nullRec, fiveRec] ⟨"x", dirDesc⟩ []).2.1 (by decide)

/-! ## C7 -/

theorem lookup_map_replace (c : String) (v : JSVal) :
    ∀ l : List (String × JSVal), (List.lookup c l).isSome →
      List.lookup c (l.map (fun kv => if kv.1 == c then (c, v) else kv)) = some v
  | [], h => by simp [List.lookup] at h
  | (k, w) :: rest, h => by
    rw [List.map_cons]
    by_cases hk : k = c
    · subst hk
      have h1 : (if ((k, w).1 == k) = true then (k, v) else (k, w)) = (k, v) := by simp
      rw [h1]
      simp [List.lookup]
    · have h0 : (if ((k, w).1 == c) = true then (c, v) else (k, w)) = (k, w) := by
        simp [hk]
      rw [h0]
      have hck : (c == k) = false := by simp [Ne.symm hk]
      simp only [List.lookup, hck] at h ⊢
      exact lookup_map_replace c v rest h

theorem lookup_append_single (c : String) (v : JSVal) :
    ∀ l : List (String × JSVal), List.lookup c l = none →
      List.lookup c (l ++ [(c, v)]) = some v
  | [], _ => by simp [List.lookup]
  | (k, w) :: rest, h => by
    by_cases hk : c = k
    · subst hk
      simp [List.lookup] at h
    · have hck : (c == k) = false := by simp [hk]
      simp only [List.lookup, hck] at h
      rw [List.cons_append]
      simp only [List.lookup, hck]
      exact lookup_append_single c v rest h

/-- Reading back a field just written (for a non-timestamp key). -/
theorem getField_setField_same (p : HealthDataPoint) (c : String) (v : JSVal)
    (hc : c ≠ tsKey) : getField (setField p c v) c = v := by
  have hcts : (c == tsKey) = false := by simp [hc]
  by_cases hs : (List.lookup c p.fields).isSome
  · have hset : setField p c v =
        { p with fields := p.fields.map (fun kv => if kv.1 == c then (c, v) else kv) } := by
      unfold setField
      simp only [hcts, Bool.false_eq_true, if_false, hs, if_true]
    rw [hset]
    unfold getField
    simp only [hcts, Bool.false_eq_true, if_false]
    rw [lookup_map_replace c v p.fields hs]
    rfl
  · have hnone : List.lookup c p.fields = none := by
      cases h : List.lookup c p.fields with
      | none => rfl
      | some w => exact absurd (by rw [h]; rfl) hs
    have hset : setField p c v = { p with fields := p.fields ++ [(c, v)] } := by
      unfold setField
      simp only [hcts, Bool.false_eq_true, if_false, hs]
    rw [hset]
    unfold getField
    simp only [hcts, Bool.false_eq_true, if_false]
    rw [lookup_append_single c v p.fields hnone]
    rfl

/-- `SUM` over a bucket with no valid numeric values is `0`. -/
theorem sumAgg_eq_zero (m : String) :
    ∀ l : List HealthDataPoint, (∀ p ∈ l, jsToNumber (getField p m) = none) →
      sumAgg l m = 0 := by
  have go : ∀ (l : List HealthDataPoint) (acc : ℚ),
      (∀ p ∈ l, jsToNumber (getField p m) = none) →
      l.foldl (fun acc p => acc + ((jsToNumber (getField p m)).getD 0)) acc = acc := by
    intro l
    induction l with
    | nil => intro acc _; rfl
    | cons p rest ih =>
      intro acc h
      have hp := h p (List.mem_cons_self p rest)
      simp only [List.foldl, hp, Option.getD_none, add_zero]
      exact ih acc (fun q hq => h q (List.mem_cons_of_mem p hq))
  intro l h
  exact go l 0 h

/-- A bucket with no valid numeric values has an empty `values` list. -/
theorem validValues_eq_nil (m : String) (l : List HealthDataPoint)
    (h : ∀ p ∈ l, jsToNumber (getField p m) = none) : validValues l m = [] := by
  simp only [validValues]
  exact List.filterMap_eq_nil_iff.mpr h

/-- C7: for a GROUP BY bucket in which no record has a valid numeric value
for `metric` (every `Number(point[metric])` is `NaN`), the aggregate SELECT
expressions classified as `SUM`, `AVG`, `MIN` and `MAX` of `metric` each
write the value `0` into the aggregated record — not `null` and not an
error.  The classification side conditions are the literal string tests of
`applyGroupBy` (`col.includes('SUM(')` etc. and the regex capture). -/
theorem c7_empty_bucket_aggregates_zero (gcols : List String) (g0 : HealthDataPoint)
    (rest : List HealthDataPoint) (col metric : String)
    (hval : ∀ p ∈ g0 :: rest, jsToNumber (getField p metric) = none)
    (hts : col ≠ tsKey) (hstar : col ≠ colStar) :
    (containsSub col.toList tagSum = true → aggArg tagSum col.toList = some metric →
      getField (aggregateBucket [col] gcols (g0 :: rest)) col = .num 0)
    ∧ (containsSub col.toList tagSum = false → containsSub col.toList tagAvg = true →
      aggArg tagAvg col.toList = some metric →
      getField (aggregateBucket [col] gcols (g0 :: rest)) col = .num 0)
    ∧ (containsSub col.toList tagSum = false → containsSub col.toList tagAvg = false →
      containsSub col.toList tagMin = true → aggArg tagMin col.toList = some metric →
      getField (aggregateBucket [col] gcols (g0 :: rest)) col = .num 0)
    ∧ (containsSub col.toList tagSum = false → containsSub col.toList tagAvg = false →
      containsSub col.toList tagMin = false → containsSub col.toList tagMax = true →
      aggArg tagMax col.toList = some metric →
      getField (aggregateBucket [col] gcols (g0 :: rest)) col = .num 0) := by
  have hstep : aggregateBucket [col] gcols (g0 :: rest) =
      aggStep gcols (g0 :: rest) g0 ⟨g0.timestamp, []⟩ col := rfl
  have hvv : validValues (g0 :: rest) metric = [] := validValues_eq_nil metric _ hval
  refine ⟨?_, ?_, ?_, ?_⟩
  · intro hSum hArg
    rw [hstep]
    unfold aggStep
    simp only [hstar, hSum, hArg, beq_iff_eq, if_false, if_true]
    rw [sumAgg_eq_zero metric _ hval]
    exact getField_setField_same _ col _ hts
  · intro hS hA hArg
    rw [hstep]
    unfold aggStep
    simp only [hstar, hS, hA, hArg, beq_iff_eq, if_false, if_true, Bool.false_eq_true]
    rw [hvv]
    simp only [List.length_nil, gt_iff_lt, lt_irrefl, if_false]
    exact getField_setField_same _ col _ hts
  · intro hS hA hM hArg
    rw [hstep]
    unfold aggStep
    simp only [hstar, hS, hA, hM, hArg, beq_iff_eq, if_false, if_true, Bool.false_eq_true]
    rw [hvv]
    simp only [List.length_nil, gt_iff_lt, lt_irrefl, if_false]
    exact getField_setField_same _ col _ hts
  · intro hS hA hM hX hArg
    rw [hstep]
    unfold aggStep
    simp only [hstar, hS, hA, hM, hX, hArg, beq_iff_eq, if_false, if_true, Bool.false_eq_true]
    rw [hvv]
    simp only [List.length_nil, gt_iff_lt, lt_irrefl, if_false]
    exact getField_setField_same _ col _ hts

def invalidValueRec : HealthDataPoint := ⟨0, [("x", .str "abc")]⟩

/-- C7 (witness): a one-record bucket whose `x` value is the non-numeric
string `abc` yields `SUM(x) = 0`. -/
theorem c7_empty_bucket_aggregates_zero_witness :
    getField (aggregateBucket ["SUM(x)"] [] [invalidValueRec]) "SUM(x)" = .num 0 :=
  (c7_empty_bucket_aggregates_zero [] invalidValueRec [] "SUM(x)" "x"
    (by decide) (by decide) (by decide)).1 (by decide) (by decide)

/-! ## C6 -/

/-- An arbitrary sequence of `loadFile` operations starting from the empty
cache (the cache's whole lifecycle: it is only ever written by `loadFile`). -/
def loadFileSeq (config : HealthExportConfig) (parseCSVFile : ParseOracle)
    (paths : List String) : HealthDataCache :=
  paths.foldl (fun cache p => (loadFile config parseCSVFile cache p).2) []

theorem lookup_none_not_mem {β : Type} (k : String) :
    ∀ l : List (String × β), List.lookup k l = none → k ∉ l.map Prod.fst
  | [], _ => by simp
  | (a, b) :: rest, h => by
    by_cases hk : k = a
    · subst hk
      simp [List.lookup] at h
    · have hka : (k == a) = false := by simp [hk]
      simp only [List.lookup, hka] at h
      simp only [List.map_cons, List.mem_cons]
      rintro (h1 | h2)
      · exact hk h1
      · exact lookup_none_not_mem k rest h h2

/-- The eviction step is an insertion-order FIFO: for a cache with distinct
keys it drops exactly the oldest-inserted entries until the bound holds. -/
theorem cleanupCache_eq_drop (config : HealthExportConfig) (cache : HealthDataCache)
    (hnd : (cacheKeys cache).Nodup) :
    cleanupCache config cache = cache.drop (cache.length - config.cacheSize) := by
  unfold cleanupCache
  by_cases h : (cacheKeys cache).length > config.cacheSize
  · simp only [h, if_true]
    have hlen : (cacheKeys cache).length = cache.length := List.length_map _ _
    have hktr : keysToRemove config cache =
        (cache.take (cache.length - config.cacheSize)).map Prod.fst := by
      unfold keysToRemove cacheKeys
      rw [List.map_take]
    have hsplit : cache = cache.take (cache.length - config.cacheSize)
        ++ cache.drop (cache.length - config.cacheSize) :=
      (List.take_append_drop _ cache).symm
    have hdisj : ∀ kv ∈ cache.drop (cache.length - config.cacheSize),
        kv.1 ∉ keysToRemove config cache := by
      intro kv hkv hkmem
      rw [hktr] at hkmem
      have hnd' : ((cache.take (cache.length - config.cacheSize)).map Prod.fst
          ++ (cache.drop (cache.length - config.cacheSize)).map Prod.fst).Nodup := by
        rw [← List.map_append, ← hsplit]
        exact hnd
      exact (List.disjoint_of_nodup_append hnd') hkmem
        (List.mem_map_of_mem Prod.fst hkv)
    have key : ∀ P : String × ParsedCSVFile → Bool,
        (∀ kv ∈ cache.take (cache.length - config.cacheSize), ¬ P kv = true) →
        (∀ kv ∈ cache.drop (cache.length - config.cacheSize), P kv = true) →
        List.filter P cache = cache.drop (cache.length - config.cacheSize) := by
      intro P hf ht
      conv_lhs => rw [hsplit]
      rw [List.filter_append, List.filter_eq_nil_iff.mpr hf,
        List.filter_eq_self.mpr ht, List.nil_append]
    apply key
    · intro kv hkv
      have : kv.1 ∈ keysToRemove config cache := by
        rw [hktr]
        exact List.mem_map_of_mem Prod.fst hkv
      simp [this]
    · intro kv hkv
      simp [hdisj kv hkv]
  · simp only [h, if_false]
    have hlen : (cacheKeys cache).length = cache.length := List.length_map _ _
    have : cache.length - config.cacheSize = 0 := by omega
    rw [this, List.drop_zero]

/-- The cache well-formedness invariant maintained by `loadFile`: distinct
keys and the configured bound. -/
def CacheWF (config : HealthExportConfig) (cache : HealthDataCache) : Prop :=
  (cacheKeys cache).Nodup ∧ cache.length ≤ config.cacheSize

theorem loadFile_preserves_wf (config : HealthExportConfig) (parseCSVFile : ParseOracle)
    (cache : HealthDataCache) (path : String) (h : CacheWF config cache) :
    CacheWF config (loadFile config parseCSVFile cache path).2 := by
  unfold loadFile
  cases hl : (if config.enableCaching then List.lookup path cache else none) with
  | some cached => simpa using h
  | none =>
    cases hp : parseCSVFile path with
    | error e => simpa using h
    | ok parsed =>
      by_cases hec : config.enableCaching
      · simp only [hec, if_true]
        rw [hec, if_pos rfl] at hl
        have hmem : path ∉ cacheKeys cache := lookup_none_not_mem path cache hl
        have hnd' : (cacheKeys (cache ++ [(path, parsed)])).Nodup := by
          unfold cacheKeys at hmem ⊢
          rw [List.map_append]
          simp only [List.map_cons, List.map_nil]
          exact List.Nodup.append h.1 (List.nodup_singleton path)
            (by simpa [List.disjoint_singleton] using hmem)
        constructor
        · unfold cacheKeys
          rw [cleanupCache_eq_drop config _ hnd']
          rw [List.map_drop]
          exact (List.Nodup.sublist (List.drop_sublist _ _)) hnd'
        · rw [cleanupCache_eq_drop config _ hnd']
          rw [List.length_drop, List.length_append]
          omega
      · simp only [hec, Bool.false_eq_true, if_false]
        exact h

theorem loadFileSeq_wf (config : HealthExportConfig) (parseCSVFile : ParseOracle) :
    ∀ (paths : List String) (cache : HealthDataCache), CacheWF config cache →
      CacheWF config (paths.foldl (fun c p => (loadFile config parseCSVFile c p).2) cache)
  | [], cache, h => h
  | p :: rest, cache, h => by
    rw [List.foldl_cons]
    exact loadFileSeq_wf config parseCSVFile rest _
      (loadFile_preserves_wf config parseCSVFile cache p h)

/-- C6: after any sequence of `loadFile` operations from the empty cache the
cache never holds more entries than the configured capacity; eviction is an
insertion-order FIFO (for a distinct-key cache `cleanupCache` drops exactly
the oldest-inserted entries until the bound holds); and every key evicted by
a cleanup is absent from the file list reported by `getCacheStats`. -/
theorem c6_cache_bound_and_fifo_eviction (config : HealthExportConfig)
    (parseCSVFile : ParseOracle) (paths : List String) :
    (getCacheStats (loadFileSeq config parseCSVFile paths)).1 ≤ config.cacheSize
    ∧ (∀ cache : HealthDataCache, (cacheKeys cache).Nodup →
        cleanupCache config cache = cache.drop (cache.length - config.cacheSize))
    ∧ (∀ (cache : HealthDataCache) (k : String), k ∈ keysToRemove config cache →
        k ∉ (getCacheStats (cleanupCache config cache)).2) := by
  refine ⟨?_, fun cache hnd => cleanupCache_eq_drop config cache hnd, ?_⟩
  · have hwf := loadFileSeq_wf config parseCSVFile paths []
      ⟨List.nodup_nil, Nat.zero_le _⟩
    unfold getCacheStats cacheKeys
    rw [List.length_map]
    exact hwf.2
  · intro cache k hk hmem
    unfold getCacheStats at hmem
    unfold cleanupCache at hmem
    by_cases h : (cacheKeys cache).length > config.cacheSize
    · rw [if_pos h] at hmem
      unfold cacheKeys at hmem
      rcases List.mem_map.mp hmem with ⟨kv, hkv, hfst⟩
      have := (List.mem_filter.mp hkv).2
      rw [hfst] at this
      simp [hk] at this
    · rw [if_neg h] at hmem
      unfold keysToRemove at hk
      have hlen : (cacheKeys cache).length = cache.length := List.length_map _ _
      have hz : cache.length - config.cacheSize = 0 := by omega
      rw [hz, List.take_zero] at hk
      exact absurd hk (List.not_mem_nil k)

def emptyCsvFile : ParsedCSVFile := ⟨"", 0, [], [], 0⟩

def cacheThree : HealthDataCache :=
  [("f1", emptyCsvFile), ("f2", emptyCsvFile), ("f3", emptyCsvFile)]

/-- C6 (witness): the FIFO conjunct applied to a concrete three-entry cache
with capacity two drops exactly the oldest entry. -/
theorem c6_cache_bound_and_fifo_eviction_witness :
    cleanupCache ⟨2, true⟩ cacheThree =
      cacheThree.drop (cacheThree.length - (2 : Nat)) :=
  (c6_cache_bound_and_fifo_eviction ⟨2, true⟩ (fun _ => .error ⟨"E", "e"⟩) []).2.1
    cacheThree (by decide)

/-! ## C8 -/

/-- `getDataInRange` as the explicit sort → dedup → sort composition over the
collected records. -/
theorem getDataInRange_fst (config : HealthExportConfig) (tz : Int)
    (parseCSVFile : ParseOracle) (files : List String) (dateRange : DateRange)
    (cache : HealthDataCache) :
    (getDataInRange config tz parseCSVFile files dateRange cache).1 =
      (dedupByTimestamp
        (((collectInRange config tz parseCSVFile dateRange files cache).1).mergeSort tsLe)
        ).mergeSort tsLe := rfl

theorem mem_tsMapSet (m : List (Int × HealthDataPoint)) (k : Int) (p : HealthDataPoint)
    (kv : Int × HealthDataPoint) (h : kv ∈ tsMapSet m k p) : kv ∈ m ∨ kv = (k, p) := by
  unfold tsMapSet at h
  by_cases hc : m.any (fun kv => kv.1 == k)
  · rw [if_pos hc] at h
    rcases List.mem_map.mp h with ⟨kv', hkv', heq⟩
    by_cases hk : kv'.1 == k
    · right
      rw [if_pos hk] at heq
      exact heq.symm
    · left
      rw [if_neg hk] at heq
      exact heq ▸ hkv'
  · rw [if_neg hc] at h
    rcases List.mem_append.mp h with h1 | h1
    · exact Or.inl h1
    · exact Or.inr (List.mem_singleton.mp h1)

theorem mem_foldl_tsMapSet :
    ∀ (l : List HealthDataPoint) (m : List (Int × HealthDataPoint))
      (kv : Int × HealthDataPoint),
      kv ∈ l.foldl (fun m p => tsMapSet m p.timestamp p) m → kv ∈ m ∨ kv.2 ∈ l
  | [], m, kv, h => Or.inl h
  | p :: rest, m, kv, h => by
    rw [List.foldl_cons] at h
    rcases mem_foldl_tsMapSet rest (tsMapSet m p.timestamp p) kv h with h1 | h1
    · rcases mem_tsMapSet m p.timestamp p kv h1 with h2 | h2
      · exact Or.inl h2
      · right
        rw [h2]
        exact List.mem_cons_self p rest
    · exact Or.inr (List.mem_cons_of_mem p h1)

/-- Deduplication only keeps records of the input. -/
theorem mem_dedupByTimestamp (l : List HealthDataPoint) (p : HealthDataPoint)
    (h : p ∈ dedupByTimestamp l) : p ∈ l := by
  unfold dedupByTimestamp at h
  rcases List.mem_map.mp h with ⟨kv, hkv, heq⟩
  rcases mem_foldl_tsMapSet l [] kv hkv with h1 | h1
  · exact absurd h1 (List.not_mem_nil kv)
  · exact heq ▸ h1

/-- Every collected record passed the per-file range-and-hour filter. -/
theorem collectInRange_filter_prop (config : HealthExportConfig) (tz : Int)
    (parseCSVFile : ParseOracle) (dateRange : DateRange) :
    ∀ (files : List String) (cache : HealthDataCache) (p : HealthDataPoint),
      p ∈ (collectInRange config tz parseCSVFile dateRange files cache).1 →
      rangeRecordFilter tz dateRange p = true
  | [], _, p, h => absurd h (List.not_mem_nil p)
  | file :: files, cache, p, h => by
    unfold collectInRange at h
    rcases List.mem_append.mp h with h1 | h1
    · cases hres : (loadFile config parseCSVFile cache file).1 with
      | error e =>
        rw [hres] at h1
        dsimp only at h1
        exact absurd h1 (List.not_mem_nil p)
      | ok parsed =>
        rw [hres] at h1
        dsimp only at h1
        by_cases hov : fileOverlapsRange tz parsed.date dateRange
        · rw [if_pos hov] at h1
          exact List.of_mem_filter h1
        · rw [if_neg hov] at h1
          exact absurd h1 (List.not_mem_nil p)
    · exact collectInRange_filter_prop config tz parseCSVFile dateRange files _ p h1

/-- C8: no record returned by `getDataInRange` has local hour-of-day equal
to 1: the per-record filter conjoins the range test with the exclusion of
`timestamp.getHours() === 1`, and both sorting and deduplication only keep
records that passed it. -/
theorem c8_no_hour_one_records (config : HealthExportConfig) (tz : Int)
    (parseCSVFile : ParseOracle) (files : List String) (dateRange : DateRange)
    (cache : HealthDataCache) :
    ∀ p ∈ (getDataInRange config tz parseCSVFile files dateRange cache).1,
      ¬ getHours tz p.timestamp = 1 := by
  intro p hp
  rw [getDataInRange_fst] at hp
  have h1 := List.mem_mergeSort.mp hp
  have h2 := mem_dedupByTimestamp _ _ h1
  have h3 := List.mem_mergeSort.mp h2
  have h4 := collectInRange_filter_prop config tz parseCSVFile dateRange files cache p h3
  unfold rangeRecordFilter at h4
  rcases Bool.and_eq_true_iff.mp h4 with ⟨-, hh⟩
  intro heq
  rw [heq] at hh
  simp at hh

def pfDayOne : ParsedCSVFile :=
  ⟨"HealthMetrics-1970-01-01.csv", 0,
    [⟨0, [("v", .num 1)]⟩, ⟨3600000, [("v", .num 2)]⟩, ⟨7200000, [("v", .num 3)]⟩], ["v"], 3⟩

def pfDayTwo : ParsedCSVFile :=
  ⟨"HealthMetrics-1970-01-02.csv", 86400000, [⟨7200000, [("v", .num 99)]⟩], ["v"], 1⟩

def twoFileOracle : ParseOracle := fun p =>
  if p == "a" then .ok pfDayOne
  else if p == "b" then .ok pfDayTwo
  else .error ⟨"FILE_NOT_FOUND", p⟩

def dayRange : DateRange := ⟨0, 86400000⟩
def cfgTen : HealthExportConfig := ⟨10, true⟩

def recHourZero : HealthDataPoint := ⟨0, [("v", .num 1)]⟩
def recDupWinner : HealthDataPoint := ⟨7200000, [("v", .num 99)]⟩

/-- The concrete two-file range read used by several witnesses: the record at
local hour 1 is dropped, and of the two records sharing timestamp 7200000
the one from the later-loaded file wins. -/
theorem getDataInRange_concrete :
    (getDataInRange cfgTen 0 twoFileOracle ["a", "b"] dayRange []).1 =
      [recHourZero, recDupWinner] := by
  rw [getDataInRange_fst]
  have hcollect : (collectInRange cfgTen 0 twoFileOracle dayRange ["a", "b"] []).1 =
      [recHourZero, ⟨7200000, [("v", .num 3)]⟩, recDupWinner] := by decide
  rw [hcollect, mergeSort_triple, mergeSort_pair]
  norm_num [tsLe, List.merge, recHourZero, recDupWinner]
  have hdedup : dedupByTimestamp
      [⟨0, [("v", JSVal.num 1)]⟩, ⟨7200000, [("v", JSVal.num 3)]⟩,
        ⟨7200000, [("v", JSVal.num 99)]⟩] =
      [⟨0, [("v", JSVal.num 1)]⟩, ⟨7200000, [("v", JSVal.num 99)]⟩] := by decide
  rw [hdedup, mergeSort_pair]
  norm_num [tsLe, recHourZero, recDupWinner]

/-- C8 (witness): the hour-exclusion theorem at the concrete two-file read. -/
theorem c8_no_hour_one_records_witness :
    ¬ getHours 0 (recHourZero.timestamp) = 1 := by
  apply c8_no_hour_one_records cfgTen 0 twoFileOracle ["a", "b"] dayRange [] recHourZero
  rw [getDataInRange_concrete]
  exact List.mem_cons_self _ _

/-! ## C5 -/

/-- The cache after `getDataInRange` is the cache after the file loop. -/
theorem getDataInRange_snd (config : HealthExportConfig) (tz : Int)
    (parseCSVFile : ParseOracle) (files : List String) (dateRange : DateRange)
    (cache : HealthDataCache) :
    (getDataInRange config tz parseCSVFile files dateRange cache).2 =
      (collectInRange config tz parseCSVFile dateRange files cache).2 := rfl

/-- A range whose days lie after both concrete files. -/
def farRange : DateRange := ⟨500000000, 600000000⟩

/-- C5 (counterexample): for the single file `a` whose filename-derived day
(1970-01-01) does not overlap the requested range, `getDataInRange` returns
no records but the cache is NOT unchanged with respect to it: the file is
loaded (parsed and cached) before the overlap test, so it appears in the
cache afterwards. -/
theorem c5_counterexample_nonoverlapping_file_cached :
    fileOverlapsRange 0 pfDayOne.date farRange = false
    ∧ (getDataInRange cfgTen 0 twoFileOracle ["a"] farRange []).1 = []
    ∧ (getDataInRange cfgTen 0 twoFileOracle ["a"] farRange []).2 = [("a", pfDayOne)]
    ∧ (getDataInRange cfgTen 0 twoFileOracle ["a"] farRange []).2 ≠ ([] : HealthDataCache) := by
  refine ⟨by decide, ?_, by rw [getDataInRange_snd]; decide, by rw [getDataInRange_snd]; decide⟩
  rw [getDataInRange_fst]
  have hc : (collectInRange cfgTen 0 twoFileOracle farRange ["a"] []).1 = [] := by decide
  rw [hc, List.mergeSort_nil]
  have : dedupByTimestamp [] = [] := rfl
  rw [this, List.mergeSort_nil]

theorem lookup_eq_some_mem {β : Type} (k : String) (v : β) :
    ∀ l : List (String × β), List.lookup k l = some v → (k, v) ∈ l
  | [], h => by simp [List.lookup] at h
  | (a, b) :: rest, h => by
    by_cases hk : k = a
    · subst hk
      simp only [List.lookup, beq_self_eq_true] at h
      rw [List.mem_cons]
      exact Or.inl (by rw [Option.some_inj.mp h])
    · have hka : (k == a) = false := by simp [hk]
      simp only [List.lookup, hka] at h
      exact List.mem_cons_of_mem _ (lookup_eq_some_mem k v rest h)

/-- A successful `loadFile` returns a value consistent with the parse
oracle, provided every cached entry is. -/
theorem loadFile_ok_oracle (config : HealthExportConfig) (pf : ParseOracle)
    (cache : HealthDataCache) (path : String) (parsed : ParsedCSVFile)
    (hwf : ∀ kv ∈ cache, pf kv.1 = .ok kv.2)
    (h : (loadFile config pf cache path).1 = .ok parsed) : pf path = .ok parsed := by
  unfold loadFile at h
  cases hl : (if config.enableCaching then List.lookup path cache else none) with
  | some cached =>
    rw [hl] at h
    dsimp only at h
    have hmem : (path, cached) ∈ cache := by
      by_cases hec : config.enableCaching
      · rw [if_pos hec] at hl
        exact lookup_eq_some_mem path cached cache hl
      · rw [if_neg hec] at hl
        exact absurd hl (Option.some_ne_none cached).symm.elim
    have := hwf (path, cached) hmem
    rwa [Except.ok.inj h] at this
  | none =>
    rw [hl] at h
    cases hp : pf path with
    | error e =>
      rw [hp] at h
      dsimp only at h
      exact absurd h (by simp)
    | ok parsed' =>
      rw [hp] at h
      dsimp only at h
      by_cases hec : config.enableCaching
      · rw [if_pos hec] at h
        dsimp only at h
        exact h
      · rw [if_neg hec] at h
        dsimp only at h
        exact h

/-- Every cache entry left by `loadFile` is oracle-consistent. -/
theorem mem_cleanupCache (config : HealthExportConfig) (cache : HealthDataCache)
    (kv : String × ParsedCSVFile) (h : kv ∈ cleanupCache config cache) : kv ∈ cache := by
  unfold cleanupCache at h
  by_cases hb : (cacheKeys cache).length > config.cacheSize
  · rw [if_pos hb] at h
    exact List.mem_of_mem_filter h
  · rwa [if_neg hb] at h

theorem loadFile_preserves_oracleWF (config : HealthExportConfig) (pf : ParseOracle)
    (cache : HealthDataCache) (path : String)
    (hwf : ∀ kv ∈ cache, pf kv.1 = .ok kv.2) :
    ∀ kv ∈ (loadFile config pf cache path).2, pf kv.1 = .ok kv.2 := by
  intro kv hkv
  unfold loadFile at hkv
  cases hl : (if config.enableCaching then List.lookup path cache else none) with
  | some cached =>
    rw [hl] at hkv
    exact hwf kv hkv
  | none =>
    rw [hl] at hkv
    cases hp : pf path with
    | error e =>
      rw [hp] at hkv
      exact hwf kv hkv
    | ok parsed =>
      rw [hp] at hkv
      dsimp only at hkv
      by_cases hec : config.enableCaching
      · rw [if_pos hec] at hkv
        dsimp only at hkv
        have := mem_cleanupCache config _ kv hkv
        rcases List.mem_append.mp this with h1 | h1
        · exact hwf kv h1
        · rw [List.mem_singleton.mp h1, hp]
      · rw [if_neg hec] at hkv
        exact hwf kv hkv

/-- Each record collected by the `getDataInRange` loop comes from a file of
the discovery list whose parsed day overlaps the range, and passed the
range-and-hour filter. -/
theorem collectInRange_sound (config : HealthExportConfig) (tz : Int) (pf : ParseOracle)
    (dateRange : DateRange) :
    ∀ (files : List String) (cache : HealthDataCache),
      (∀ kv ∈ cache, pf kv.1 = .ok kv.2) →
      ∀ p ∈ (collectInRange config tz pf dateRange files cache).1,
        ∃ f ∈ files, ∃ parsed, pf f = .ok parsed ∧
          fileOverlapsRange tz parsed.date dateRange = true ∧ p ∈ parsed.data ∧
          rangeRecordFilter tz dateRange p = true
  | [], _, _, p, h => absurd h (List.not_mem_nil p)
  | file :: files, cache, hwf, p, h => by
    unfold collectInRange at h
    rcases List.mem_append.mp h with h1 | h1
    · cases hres : (loadFile config pf cache file).1 with
      | error e =>
        rw [hres] at h1
        dsimp only at h1
        exact absurd h1 (List.not_mem_nil p)
      | ok parsed =>
        rw [hres] at h1
        dsimp only at h1
        by_cases hov : fileOverlapsRange tz parsed.date dateRange
        · rw [if_pos hov] at h1
          exact ⟨file, List.mem_cons_self _ _, parsed,
            loadFile_ok_oracle config pf cache file parsed hwf hres, hov,
            List.mem_of_mem_filter h1, List.of_mem_filter h1⟩
        · rw [if_neg hov] at h1
          exact absurd h1 (List.not_mem_nil p)
    · have hwf' := loadFile_preserves_oracleWF config pf cache file hwf
      rcases collectInRange_sound config tz pf dateRange files _ hwf' p h1 with
        ⟨f, hf, parsed, hp1, hp2, hp3, hp4⟩
      exact ⟨f, List.mem_cons_of_mem _ hf, parsed, hp1, hp2, hp3, hp4⟩

/-- When the bound is not yet reached, `cleanupCache` is the identity. -/
theorem cleanupCache_noop (config : HealthExportConfig) (cache : HealthDataCache)
    (h : cache.length ≤ config.cacheSize) : cleanupCache config cache = cache := by
  unfold cleanupCache
  have hlen : (cacheKeys cache).length = cache.length := List.length_map _ _
  rw [if_neg (by omega)]

/-- One `loadFile` step below the capacity: keys persist, the length grows by
at most one, and a successfully parseable requested path ends up cached. -/
theorem loadFile_step_no_evict (config : HealthExportConfig) (pf : ParseOracle)
    (cache : HealthDataCache) (path : String)
    (hec : config.enableCaching = true) (hlen : cache.length + 1 ≤ config.cacheSize) :
    (∀ f ∈ cacheKeys cache, f ∈ cacheKeys (loadFile config pf cache path).2)
    ∧ ((loadFile config pf cache path).2).length ≤ cache.length + 1
    ∧ (∀ parsed, pf path = .ok parsed →
        path ∈ cacheKeys (loadFile config pf cache path).2) := by
  cases hl : List.lookup path cache with
  | some cached =>
    have h2 : (loadFile config pf cache path).2 = cache := by
      unfold loadFile
      rw [hec, if_pos rfl, hl]
    rw [h2]
    refine ⟨fun f hf => hf, by omega, fun parsed _ => ?_⟩
    exact List.mem_map.mpr ⟨(path, cached), lookup_eq_some_mem path cached cache hl, rfl⟩
  | none =>
    cases hp : pf path with
    | error e =>
      have h2 : (loadFile config pf cache path).2 = cache := by
        unfold loadFile
        rw [hec, if_pos rfl, hl]
        dsimp only
        rw [hp]
      rw [h2]
      exact ⟨fun f hf => hf, by omega, fun parsed h => absurd h (by simp)⟩
    | ok parsed =>
      have hnoop : cleanupCache config (cache ++ [(path, parsed)]) =
          cache ++ [(path, parsed)] := by
        apply cleanupCache_noop
        rw [List.length_append]
        simpa using hlen
      have h2 : (loadFile config pf cache path).2 = cache ++ [(path, parsed)] := by
        unfold loadFile
        rw [hec, if_pos rfl, hl]
        dsimp only
        rw [hp]
        dsimp only
        rw [if_pos rfl]
        dsimp only
        rw [hnoop]
      rw [h2]
      refine ⟨?_, ?_, ?_⟩
      · intro f hf
        unfold cacheKeys at hf ⊢
        rw [List.map_append]
        exact List.mem_append_left _ hf
      · rw [List.length_append]
        simp
      · intro parsed' _
        unfold cacheKeys
        rw [List.map_append]
        exact List.mem_append_right _ (by simp)

/-- Keys persist across the rest of the loop while the total stays within
capacity. -/
theorem collectInRange_key_persists (config : HealthExportConfig) (tz : Int)
    (pf : ParseOracle) (dateRange : DateRange) :
    ∀ (files : List String) (cache : HealthDataCache) (f : String),
      config.enableCaching = true → f ∈ cacheKeys cache →
      cache.length + files.length ≤ config.cacheSize →
      f ∈ cacheKeys ((collectInRange config tz pf dateRange files cache).2)
  | [], cache, f, _, hf, _ => hf
  | file :: files, cache, f, hec, hf, hlen => by
    unfold collectInRange
    dsimp only
    have hstep := loadFile_step_no_evict config pf cache file hec
      (by simp only [List.length_cons] at hlen; omega)
    apply collectInRange_key_persists config tz pf dateRange files _ f hec
      (hstep.1 f hf)
    have := hstep.2.1
    simp only [List.length_cons] at hlen
    omega

/-- Every file of the discovery list that parses successfully is loaded into
the cache by `getDataInRange`'s loop, overlap or not (no eviction assumed). -/
theorem collectInRange_loads_every_file (config : HealthExportConfig) (tz : Int)
    (pf : ParseOracle) (dateRange : DateRange) :
    ∀ (files : List String) (cache : HealthDataCache) (f : String)
      (parsed : ParsedCSVFile),
      config.enableCaching = true → pf f = .ok parsed → f ∈ files →
      cache.length + files.length ≤ config.cacheSize →
      f ∈ cacheKeys ((collectInRange config tz pf dateRange files cache).2)
  | [], _, f, _, _, _, hmem, _ => absurd hmem (List.not_mem_nil f)
  | file :: files, cache, f, parsed, hec, hok, hmem, hlen => by
    unfold collectInRange
    dsimp only
    have hlen1 : cache.length + 1 ≤ config.cacheSize := by
      simp only [List.length_cons] at hlen; omega
    have hstep := loadFile_step_no_evict config pf cache file hec hlen1
    rcases List.mem_cons.mp hmem with rfl | hmem'
    · apply collectInRange_key_persists config tz pf dateRange files _ f hec
        (hstep.2.2 parsed hok)
      have := hstep.2.1
      simp only [List.length_cons] at hlen
      omega
    · apply collectInRange_loads_every_file config tz pf dateRange files _ f parsed hec
        hok hmem'
      have := hstep.2.1
      simp only [List.length_cons] at hlen
      omega

/-- C5 (amended): the overlap test only gates which *records* contribute —
every returned record comes from a file whose filename-derived day overlaps
the range — but files are NOT skipped before loading: `getDataInRange` calls
`loadFile` on every discovered file before testing overlap, so (within
capacity) every successfully parseable file, overlapping or not, ends up in
the cache. -/
theorem c5_records_from_overlap_but_all_files_loaded (config : HealthExportConfig)
    (tz : Int) (pf : ParseOracle) (files : List String) (dateRange : DateRange)
    (cache : HealthDataCache) :
    ((∀ kv ∈ cache, pf kv.1 = .ok kv.2) →
      ∀ p ∈ (getDataInRange config tz pf files dateRange cache).1,
        ∃ f ∈ files, ∃ parsed, pf f = .ok parsed ∧
          fileOverlapsRange tz parsed.date dateRange = true ∧ p ∈ parsed.data ∧
          rangeRecordFilter tz dateRange p = true)
    ∧ (∀ (f : String) (parsed : ParsedCSVFile),
        config.enableCaching = true → pf f = .ok parsed → f ∈ files →
        cache.length + files.length ≤ config.cacheSize →
        f ∈ cacheKeys ((getDataInRange config tz pf files dateRange cache).2)) := by
  constructor
  · intro hwf p hp
    rw [getDataInRange_fst] at hp
    have h1 := List.mem_mergeSort.mp hp
    have h2 := mem_dedupByTimestamp _ _ h1
    have h3 := List.mem_mergeSort.mp h2
    exact collectInRange_sound config tz pf dateRange files cache hwf p h3
  · intro f parsed hec hok hmem hlen
    rw [getDataInRange_snd]
    exact collectInRange_loads_every_file config tz pf dateRange files cache f parsed
      hec hok hmem hlen

/-- C5 (witness): the amended theorem's loading conjunct at the concrete
non-overlapping single-file read: file `a` is cached even though its day
does not overlap the range. -/
theorem c5_records_from_overlap_but_all_files_loaded_witness :
    ("a" : String) ∈ cacheKeys ((getDataInRange cfgTen 0 twoFileOracle ["a"] farRange []).2) :=
  (c5_records_from_overlap_but_all_files_loaded cfgTen 0 twoFileOracle ["a"] farRange []).2
    "a" pfDayOne (by decide) (by decide) (by decide) (by decide)

/-! ## C1 -/

theorem tsLe_trans : ∀ a b c : HealthDataPoint, tsLe a b → tsLe b c → tsLe a c := by
  intro a b c hab hbc
  simp only [tsLe, decide_eq_true_eq] at *
  omega

theorem tsLe_total : ∀ a b : HealthDataPoint, tsLe a b || tsLe b a := by
  intro a b
  simp only [tsLe, Bool.or_eq_true, decide_eq_true_eq]
  omega

/-- Stability of the host sort for the timestamp comparator: the subsequence
of records carrying any fixed timestamp is unchanged by the sort. -/
theorem mergeSort_tsLe_filter_fixed (l : List HealthDataPoint) (t : Int) :
    (l.mergeSort tsLe).filter (fun q => q.timestamp == t) =
      l.filter (fun q => q.timestamp == t) := by
  have hA : (l.filter (fun q => q.timestamp == t)).Pairwise (fun a b => tsLe a b) := by
    apply List.pairwise_of_forall_mem_list
    intro a ha b hb
    have ha' := (List.mem_filter.mp ha).2
    have hb' := (List.mem_filter.mp hb).2
    simp only [beq_iff_eq] at ha' hb'
    simp [tsLe, ha', hb']
  have h1 : List.Sublist (l.filter (fun q => q.timestamp == t)) (l.mergeSort tsLe) :=
    List.sublist_mergeSort tsLe_trans tsLe_total hA (List.filter_sublist l)
  have h2 : (l.filter (fun q => q.timestamp == t)).filter (fun q => q.timestamp == t) =
      l.filter (fun q => q.timestamp == t) :=
    List.filter_eq_self.mpr (fun a ha => (List.mem_filter.mp ha).2)
  have h3 := h1.filter (fun q => q.timestamp == t)
  rw [h2] at h3
  have h4 : ((l.mergeSort tsLe).filter (fun q => q.timestamp == t)).length =
      (l.filter (fun q => q.timestamp == t)).length :=
    ((List.mergeSort_perm l tsLe).filter (fun q => q.timestamp == t)).length_eq
  exact (h3.eq_of_length h4.symm).symm

theorem lookupI_map_replace_hit (t : Int) (p : HealthDataPoint) :
    ∀ m : List (Int × HealthDataPoint), m.any (fun kv => kv.1 == t) = true →
      List.lookup t (m.map (fun kv => if kv.1 == t then (t, p) else kv)) = some p
  | [], h => by simp at h
  | (a, b) :: rest, h => by
    rw [List.map_cons]
    by_cases ha : a = t
    · subst ha
      have h1 : (if (((a, b) : Int × HealthDataPoint).1 == a) = true then (a, p)
          else (a, b)) = (a, p) := by simp
      rw [h1]
      simp [List.lookup]
    · have h1 : (if (((a, b) : Int × HealthDataPoint).1 == t) = true then (t, p)
          else (a, b)) = (a, b) := by simp [ha]
      rw [h1]
      rw [List.any_cons] at h
      have h2 : (((a, b) : Int × HealthDataPoint).1 == t) = false := by simp [ha]
      rw [h2, Bool.false_or] at h
      have h3 : (t == a) = false := by simp [Ne.symm ha]
      simp only [List.lookup, h3]
      exact lookupI_map_replace_hit t p rest h

theorem lookupI_map_replace_miss (t : Int) (p : HealthDataPoint) (k : Int) (hk : k ≠ t) :
    ∀ m : List (Int × HealthDataPoint),
      List.lookup k (m.map (fun kv => if kv.1 == t then (t, p) else kv)) =
        List.lookup k m
  | [] => rfl
  | (a, b) :: rest => by
    rw [List.map_cons]
    by_cases ha : a = t
    · subst ha
      have h1 : (if (((a, b) : Int × HealthDataPoint).1 == a) = true then (a, p)
          else (a, b)) = (a, p) := by simp
      rw [h1]
      have h2 : (k == a) = false := by simp [hk]
      simp only [List.lookup, h2]
      exact lookupI_map_replace_miss a p k hk rest
    · have h1 : (if (((a, b) : Int × HealthDataPoint).1 == t) = true then (t, p)
          else (a, b)) = (a, b) := by simp [ha]
      rw [h1]
      simp only [List.lookup]
      cases hka : (k == a) with
      | true => rfl
      | false => exact lookupI_map_replace_miss t p k hk rest

theorem lookupI_none_of_not_any (t : Int) :
    ∀ m : List (Int × HealthDataPoint), m.any (fun kv => kv.1 == t) = false →
      List.lookup t m = none
  | [], _ => rfl
  | (a, b) :: rest, h => by
    rw [List.any_cons, Bool.or_eq_false_iff] at h
    simp only [List.lookup, show (t == a) = false by
      have := h.1
      simp only [beq_eq_false_iff_ne] at this ⊢
      exact Ne.symm this]
    exact lookupI_none_of_not_any t rest h.2

theorem lookupI_append_last (t : Int) (p : HealthDataPoint) :
    ∀ m : List (Int × HealthDataPoint), List.lookup t m = none →
      List.lookup t (m ++ [(t, p)]) = some p
  | [], _ => by simp [List.lookup]
  | (a, b) :: rest, h => by
    by_cases ha : t = a
    · subst ha
      simp [List.lookup] at h
    · have h1 : (t == a) = false := by simp [ha]
      simp only [List.lookup, h1] at h
      rw [List.cons_append]
      simp only [List.lookup, h1]
      exact lookupI_append_last t p rest h

theorem lookupI_append_other (t : Int) (p : HealthDataPoint) (k : Int) (hk : k ≠ t) :
    ∀ m : List (Int × HealthDataPoint),
      List.lookup k (m ++ [(t, p)]) = List.lookup k m
  | [] => by
    have h1 : (k == t) = false := by simp [hk]
    simp [List.lookup, h1]
  | (a, b) :: rest => by
    rw [List.cons_append]
    simp only [List.lookup]
    cases hka : (k == a) with
    | true => rfl
    | false => exact lookupI_append_other t p k hk rest

/-- `Map.set` semantics at the lookup level. -/
theorem lookup_tsMapSet (m : List (Int × HealthDataPoint)) (t : Int) (p : HealthDataPoint)
    (k : Int) :
    List.lookup k (tsMapSet m t p) = if k = t then some p else List.lookup k m := by
  unfold tsMapSet
  by_cases hc : m.any (fun kv => kv.1 == t) = true
  · rw [if_pos hc]
    by_cases hk : k = t
    · subst hk
      rw [if_pos rfl]
      exact lookupI_map_replace_hit k p m hc
    · rw [if_neg hk]
      exact lookupI_map_replace_miss t p k hk m
  · have hc' : m.any (fun kv => kv.1 == t) = false := by
      cases h : m.any (fun kv => kv.1 == t) with
      | true => exact absurd h hc
      | false => rfl
    rw [if_neg (by simp [hc'])]
    by_cases hk : k = t
    · subst hk
      rw [if_pos rfl]
      exact lookupI_append_last k p m (lookupI_none_of_not_any k m hc')
    · rw [if_neg hk]
      exact lookupI_append_other t p k hk m

/-- The dedup fold's lookup returns the last record of the processed list
with the looked-up timestamp, falling back to the initial map. -/
theorem lookup_foldl_tsMapSet :
    ∀ (l : List HealthDataPoint) (m : List (Int × HealthDataPoint)) (k : Int),
      List.lookup k (l.foldl (fun m p => tsMapSet m p.timestamp p) m) =
        match (l.filter (fun q => q.timestamp == k)).getLast? with
        | some q => some q
        | none => List.lookup k m
  | [], m, k => by simp
  | p :: rest, m, k => by
    rw [List.foldl_cons]
    rw [lookup_foldl_tsMapSet rest (tsMapSet m p.timestamp p) k]
    rw [List.filter_cons]
    by_cases hp : p.timestamp = k
    · have hb : (p.timestamp == k) = true := by simp [hp]
      rw [hb]
      simp only [if_true]
      cases hrest : (rest.filter (fun q => q.timestamp == k)).getLast? with
      | some q =>
        have : (p :: rest.filter (fun q => q.timestamp == k)).getLast? = some q := by
          cases hfil : rest.filter (fun q => q.timestamp == k) with
          | nil => rw [hfil] at hrest; simp at hrest
          | cons x xs =>
            rw [hfil] at hrest
            rw [List.getLast?_cons_cons]
            exact hrest
        rw [this]
      | none =>
        have hfil : rest.filter (fun q => q.timestamp == k) = [] := by
          cases hf : rest.filter (fun q => q.timestamp == k) with
          | nil => rfl
          | cons x xs => rw [hf] at hrest; simp [List.getLast?] at hrest
        rw [hfil]
        simp only [List.getLast?_singleton]
        rw [lookup_tsMapSet, if_pos (hp ▸ rfl)]
    · have hb : (p.timestamp == k) = false := by simp [hp]
      rw [hb]
      simp only [Bool.false_eq_true, if_false]
      cases hrest : (rest.filter (fun q => q.timestamp == k)).getLast? with
      | some q => rfl
      | none =>
        rw [lookup_tsMapSet, if_neg (fun h => hp h.symm)]

theorem mem_of_lookupI (k : Int) (v : HealthDataPoint) :
    ∀ m : List (Int × HealthDataPoint), List.lookup k m = some v → (k, v) ∈ m
  | [], h => by simp [List.lookup] at h
  | (a, b) :: rest, h => by
    by_cases hk : k = a
    · subst hk
      simp only [List.lookup, beq_self_eq_true] at h
      rw [List.mem_cons]
      exact Or.inl (by rw [Option.some_inj.mp h])
    · have hka : (k == a) = false := by simp [hk]
      simp only [List.lookup, hka] at h
      exact List.mem_cons_of_mem _ (mem_of_lookupI k v rest h)

/-- Every entry of the dedup fold pairs a timestamp with a record carrying
that timestamp. -/
theorem foldl_tsMapSet_entry_ts :
    ∀ (l : List HealthDataPoint) (m : List (Int × HealthDataPoint)),
      (∀ kv ∈ m, kv.2.timestamp = kv.1) →
      ∀ kv ∈ l.foldl (fun m p => tsMapSet m p.timestamp p) m, kv.2.timestamp = kv.1
  | [], m, hm, kv, h => hm kv h
  | p :: rest, m, hm, kv, h => by
    rw [List.foldl_cons] at h
    refine foldl_tsMapSet_entry_ts rest (tsMapSet m p.timestamp p) ?_ kv h
    intro kv' hkv'
    rcases mem_tsMapSet m p.timestamp p kv' hkv' with h1 | h1
    · exact hm kv' h1
    · rw [h1]

/-- The dedup fold keeps its keys distinct. -/
theorem foldl_tsMapSet_keys_nodup :
    ∀ (l : List HealthDataPoint) (m : List (Int × HealthDataPoint)),
      (m.map Prod.fst).Nodup →
      ((l.foldl (fun m p => tsMapSet m p.timestamp p) m).map Prod.fst).Nodup
  | [], m, hm => hm
  | p :: rest, m, hm => by
    rw [List.foldl_cons]
    refine foldl_tsMapSet_keys_nodup rest (tsMapSet m p.timestamp p) ?_
    unfold tsMapSet
    by_cases hc : m.any (fun kv => kv.1 == p.timestamp) = true
    · rw [if_pos hc]
      have : (m.map (fun kv => if kv.1 == p.timestamp then (p.timestamp, p) else kv)).map
          Prod.fst = m.map Prod.fst := by
        rw [List.map_map]
        apply List.map_congr_left
        intro kv _
        by_cases hkv : kv.1 = p.timestamp
        · simp [hkv]
        · simp [hkv]
      rw [this]
      exact hm
    · have hc' : m.any (fun kv => kv.1 == p.timestamp) = false := by
        cases h : m.any (fun kv => kv.1 == p.timestamp) with
        | true => exact absurd h hc
        | false => rfl
      rw [if_neg (by simp [hc'])]
      rw [List.map_append]
      simp only [List.map_cons, List.map_nil]
      refine List.Nodup.append hm (List.nodup_singleton _) ?_
      intro k hk1 hk2
      rw [List.mem_singleton.mp hk2] at hk1
      rcases List.mem_map.mp hk1 with ⟨kv, hkv, hfst⟩
      have := List.any_eq_false.mp hc' kv hkv
      rw [hfst] at this
      simp at this

theorem lookupI_of_mem_nodup (k : Int) (v : HealthDataPoint) :
    ∀ m : List (Int × HealthDataPoint), (m.map Prod.fst).Nodup → (k, v) ∈ m →
      List.lookup k m = some v
  | [], _, h => absurd h (List.not_mem_nil _)
  | (a, b) :: rest, hnd, h => by
    rcases List.mem_cons.mp h with h1 | h1
    · obtain ⟨h1a, h1b⟩ := Prod.mk.inj h1
      subst h1a
      subst h1b
      simp [List.lookup]
    · have hka : k ≠ a := by
        intro hk
        subst hk
        rw [List.map_cons] at hnd
        exact (List.nodup_cons.mp hnd).1 (List.mem_map.mpr ⟨(k, v), h1, rfl⟩)
      have hka' : (k == a) = false := by simp [hka]
      simp only [List.lookup, hka']
      rw [List.map_cons] at hnd
      exact lookupI_of_mem_nodup k v rest (List.nodup_cons.mp hnd).2 h1

/-- Deduplication keeps, for each surviving record, exactly the last record
of the input with its timestamp. -/
theorem dedup_last_wins (s : List HealthDataPoint) (p : HealthDataPoint)
    (hp : p ∈ dedupByTimestamp s) :
    (s.filter (fun q => q.timestamp == p.timestamp)).getLast? = some p := by
  unfold dedupByTimestamp at hp
  rcases List.mem_map.mp hp with ⟨kv, hkv, heq⟩
  have hts : kv.2.timestamp = kv.1 :=
    foldl_tsMapSet_entry_ts s [] (by simp) kv hkv
  have hnd : ((s.foldl (fun m p => tsMapSet m p.timestamp p) []).map Prod.fst).Nodup :=
    foldl_tsMapSet_keys_nodup s [] (by simp)
  have hkv' : (kv.1, kv.2) ∈ s.foldl (fun m p => tsMapSet m p.timestamp p) [] := by
    simpa using hkv
  have hlook : List.lookup kv.1 (s.foldl (fun m p => tsMapSet m p.timestamp p) []) =
      some kv.2 := lookupI_of_mem_nodup kv.1 kv.2 _ hnd hkv'
  rw [lookup_foldl_tsMapSet s [] kv.1] at hlook
  rw [heq] at hts
  rw [heq] at hlook
  rw [hts]
  cases hlast : (s.filter (fun q => q.timestamp == kv.1)).getLast? with
  | some q =>
    rw [hlast] at hlook
    dsimp only at hlook
    exact hlook
  | none =>
    rw [hlast] at hlook
    simp [List.lookup] at hlook

/-- The deduplicated list has pairwise-distinct timestamps. -/
theorem dedup_ts_nodup (s : List HealthDataPoint) :
    ((dedupByTimestamp s).map (fun p => p.timestamp)).Nodup := by
  unfold dedupByTimestamp
  rw [List.map_map]
  have : ((s.foldl (fun m p => tsMapSet m p.timestamp p) []).map
      ((fun p => p.timestamp) ∘ Prod.snd)) =
      (s.foldl (fun m p => tsMapSet m p.timestamp p) []).map Prod.fst := by
    apply List.map_congr_left
    intro kv hkv
    exact foldl_tsMapSet_entry_ts s [] (by simp) kv hkv
  rw [this]
  exact foldl_tsMapSet_keys_nodup s [] (by simp)

/-- A timestamp occurs in the input iff it occurs in the deduplicated list. -/
theorem dedup_ts_complete (s : List HealthDataPoint) (t : Int) :
    (∃ q ∈ s, q.timestamp = t) ↔ ∃ p ∈ dedupByTimestamp s, p.timestamp = t := by
  constructor
  · intro ⟨q, hq, hqt⟩
    have hne : s.filter (fun r => r.timestamp == t) ≠ [] := by
      intro hnil
      have : q ∈ s.filter (fun r => r.timestamp == t) :=
        List.mem_filter.mpr ⟨hq, by simp [hqt]⟩
      rw [hnil] at this
      exact absurd this (List.not_mem_nil q)
    cases hlast : (s.filter (fun r => r.timestamp == t)).getLast? with
    | none => exact absurd (List.getLast?_eq_none_iff.mp hlast) hne
    | some r =>
      have hlook := lookup_foldl_tsMapSet s [] t
      rw [hlast] at hlook
      have hmem := mem_of_lookupI t r _ hlook
      refine ⟨r, ?_, ?_⟩
      · unfold dedupByTimestamp
        exact List.mem_map.mpr ⟨(t, r), hmem, rfl⟩
      · exact foldl_tsMapSet_entry_ts s [] (by simp) (t, r) hmem
  · intro ⟨p, hp, hpt⟩
    exact ⟨p, mem_dedupByTimestamp s p hp, hpt⟩

/-- C1: for every file collection, parse oracle and date range, the record
sequence returned by `getDataInRange` is sorted strictly ascending by
timestamp (hence no two records share a timestamp); every returned record is
exactly the last record observed, in file-load order, among the collected
records with its timestamp (later-loaded file wins ties, by stability of the
sort and last-write-wins of the dedup `Map`); and a timestamp occurs among
the collected records iff it occurs in the result. -/
theorem c1_getDataInRange_sorted_dedup_last_wins (config : HealthExportConfig)
    (tz : Int) (parseCSVFile : ParseOracle) (files : List String)
    (dateRange : DateRange) (cache : HealthDataCache) :
    (((getDataInRange config tz parseCSVFile files dateRange cache).1.map
        (fun p => p.timestamp)).Pairwise (· < ·))
    ∧ (∀ p ∈ (getDataInRange config tz parseCSVFile files dateRange cache).1,
        ((collectInRange config tz parseCSVFile dateRange files cache).1.filter
          (fun q => q.timestamp == p.timestamp)).getLast? = some p)
    ∧ (∀ t : Int,
        (∃ q ∈ (collectInRange config tz parseCSVFile dateRange files cache).1,
          q.timestamp = t)
        ↔ (∃ p ∈ (getDataInRange config tz parseCSVFile files dateRange cache).1,
          p.timestamp = t)) := by
  have hout : (getDataInRange config tz parseCSVFile files dateRange cache).1 =
      (dedupByTimestamp
        (((collectInRange config tz parseCSVFile dateRange files cache).1).mergeSort tsLe)
        ).mergeSort tsLe := getDataInRange_fst ..
  refine ⟨?_, ?_, ?_⟩
  · rw [hout]
    rw [List.pairwise_map]
    have hsorted := List.sorted_mergeSort tsLe_trans tsLe_total
      (dedupByTimestamp
        (((collectInRange config tz parseCSVFile dateRange files cache).1).mergeSort tsLe))
    have hperm := List.mergeSort_perm
      (dedupByTimestamp
        (((collectInRange config tz parseCSVFile dateRange files cache).1).mergeSort tsLe))
      tsLe
    have hnd := (List.Perm.nodup_iff (hperm.map (fun p => p.timestamp))).mpr
      (dedup_ts_nodup _)
    have hne := List.pairwise_map.mp hnd
    refine (hsorted.and hne).imp ?_
    intro a b hab
    have h1 : a.timestamp ≤ b.timestamp := by
      have := hab.1
      simpa [tsLe] using this
    exact lt_of_le_of_ne h1 hab.2
  · intro p hp
    rw [hout] at hp
    have h1 := mem_dedupByTimestamp _ _ (List.mem_mergeSort.mp hp)
    have h2 := dedup_last_wins _ _ (List.mem_mergeSort.mp hp)
    rwa [mergeSort_tsLe_filter_fixed] at h2
  · intro t
    rw [hout]
    constructor
    · intro ⟨q, hq, hqt⟩
      have hq' : q ∈ ((collectInRange config tz parseCSVFile dateRange files
          cache).1).mergeSort tsLe := List.mem_mergeSort.mpr hq
      rcases (dedup_ts_complete _ t).mp ⟨q, hq', hqt⟩ with ⟨r, hr, hrt⟩
      exact ⟨r, List.mem_mergeSort.mpr hr, hrt⟩
    · intro ⟨r, hr, hrt⟩
      have hr' := mem_dedupByTimestamp _ _ (List.mem_mergeSort.mp hr)
      exact ⟨r, List.mem_mergeSort.mp hr', hrt⟩

/-- C1 (witness): in the concrete two-file read, the surviving record at the
duplicated timestamp 7200000 is the last one observed in file-load order
(the value from the later-loaded file `b`). -/
theorem c1_getDataInRange_sorted_dedup_last_wins_witness :
    ((collectInRange cfgTen 0 twoFileOracle dayRange ["a", "b"] []).1.filter
      (fun q => q.timestamp == recDupWinner.timestamp)).getLast? = some recDupWinner := by
  apply (c1_getDataInRange_sorted_dedup_last_wins cfgTen 0 twoFileOracle ["a", "b"]
    dayRange []).2.1 recDupWinner
  rw [getDataInRange_concrete]
  exact List.mem_cons_of_mem _ (List.mem_cons_self _ _)

end HealthChat
